import Mathlib

/-!
Verification of `utilconversion.go`: the conversion-data stash and the round-trip harness.

A shallow embedding of the package.

* Go maps `map[string]string` are association lists with unique-key semantics given by
  `StrMap.get`, `StrMap.set`, `StrMap.delete`; a possibly-nil map is an `Option StrMap`.
* A `metav1.Object` is an `Object P`: the `ObjectMeta` part plus the remaining content `P`
  (TypeMeta, Spec, Status, ...).  `GetAnnotations`/`SetAnnotations` are the accessors of
  `metav1.ObjectMeta`.
* Calls into libraries (`ToUnstructured`, `json.Marshal`, `json.Unmarshal`) are fields of
  `JSONLib`; `testLib` instantiates them for the `TestObject` of `utilconversion_test.go`
  with an encoder and a parser of JSON text and its strings as Unicode text; `rawLib` does
  the same for `RawTestObject`, the test object with its strings as bytes, valid UTF-8 or
  not.
* Pointer arguments of the stash functions are passed as values and returned updated; the
  source and the target of `UnmarshalData` are distinct objects.
* The harness `FuzzTestFunc` runs over a world `W` of objects reached by reference; every
  call that leaves the package is a function on the world, listed in `Runtime`.
* The spec conversions of `_example/api/v1alpha1/conversion.go` write into a destination
  passed by value and return it updated.
-/

namespace Utilconversion

/-! ## Go string maps -/

/-- A non-nil Go `map[string]string`, as an association list read through `StrMap.get`. -/
abbrev StrMap := List (String × String)

/-- Map read `m[k]` with the comma-ok flag folded into the option. -/
def StrMap.get : StrMap → String → Option String
  | [], _ => none
  | (k', v) :: rest, k => if k' = k then some v else StrMap.get rest k

/-- Go builtin `delete(m, k)`. -/
def StrMap.delete : StrMap → String → StrMap
  | [], _ => []
  | (k', v) :: rest, k => if k' = k then StrMap.delete rest k else (k', v) :: StrMap.delete rest k

/-- Map write `m[k] = v`. -/
def StrMap.set (m : StrMap) (k v : String) : StrMap :=
  (k, v) :: StrMap.delete m k

/-- Read `m[k]` on a possibly-nil map: a nil map reads like an empty one. -/
def GoMap.get (m : Option StrMap) (k : String) : Option String :=
  match m with
  | none => none
  | some l => StrMap.get l k

/-! ## metav1.Object -/

/-- The identity metadata of an object (the part of `metav1.ObjectMeta` the stash is
concerned with). `none` is a nil map. -/
structure ObjectMeta where
  Name : String
  Namespace : String
  Labels : Option StrMap
  Annotations : Option StrMap
deriving DecidableEq, Repr

/-- The zero value of `metav1.ObjectMeta`. -/
def ObjectMeta.zero : ObjectMeta :=
  { Name := "", Namespace := "", Labels := none, Annotations := none }

/-- An object embedding `metav1.ObjectMeta` next to its other content `P`. -/
structure Object (P : Type) where
  Meta : ObjectMeta
  Content : P
deriving DecidableEq, Repr

/-- Method `(*ObjectMeta).GetAnnotations`. -/
def Object.GetAnnotations {P : Type} (o : Object P) : Option StrMap :=
  o.Meta.Annotations

/-- Method `(*ObjectMeta).SetAnnotations`. -/
def Object.SetAnnotations {P : Type} (o : Object P) (a : Option StrMap) : Object P :=
  { o with Meta := { o.Meta with Annotations := a } }

/-! ## Unstructured JSON trees -/

/-- A JSON value as held in a `map[string]interface{}`. Integer literals are `num`;
number literals with a fraction or an exponent keep their text in `float`. A string is
`str` when it is known as text; `bytes` is a Go string given by its bytes (each below 256),
which need not be valid UTF-8. -/
inductive JSON where
  | null
  | bool (b : Bool)
  | num (n : Int)
  | float (lit : List Char)
  | str (s : List Char)
  | bytes (b : List Nat)
  | arr (xs : List JSON)
  | obj (kvs : List (List Char × JSON))
deriving Repr

/-- Go builtin `delete(u, key)` on a `map[string]interface{}`. -/
def deleteKey : List (List Char × JSON) → List Char → List (List Char × JSON)
  | [], _ => []
  | (k', v) :: rest, k => if k' = k then deleteKey rest k else (k', v) :: deleteKey rest k

/-! ## JSON text: the encoder of `json.Marshal` and the decoder's parser -/

/-- Lower-case hexadecimal digit of a nibble. -/
def hexDigit (n : Nat) : Char :=
  if n < 10 then Char.ofNat (48 + n) else Char.ofNat (87 + n)

/-- Four hexadecimal digits of `n % 65536`. -/
def hex4 (n : Nat) : List Char :=
  [hexDigit (n / 4096 % 16), hexDigit (n / 256 % 16), hexDigit (n / 16 % 16), hexDigit (n % 16)]

/-- How `json.Marshal` writes one character of a string (HTML escaping is on). -/
def escapeChar (c : Char) : List Char :=
  if c = '"' then ['\\', '"']
  else if c = '\\' then ['\\', '\\']
  else if c = '\x08' then ['\\', 'b']
  else if c = '\x0c' then ['\\', 'f']
  else if c = '\n' then ['\\', 'n']
  else if c = '\r' then ['\\', 'r']
  else if c = '\t' then ['\\', 't']
  else if c.toNat < 32 ∨ c = '<' ∨ c = '>' ∨ c = '&' ∨ c.toNat = 0x2028 ∨ c.toNat = 0x2029 then
    '\\' :: 'u' :: hex4 c.toNat
  else [c]

/-- The escaped text of a string, without the quotes. -/
def escapeString : List Char → List Char
  | [] => []
  | c :: cs => escapeChar c ++ escapeString cs

/-- A quoted string literal. -/
def encodeString (s : List Char) : List Char := '"' :: (escapeString s ++ ['"'])

/-- Is the byte a UTF-8 continuation byte? -/
def isCont (b : Nat) : Bool := decide (0x80 ≤ b ∧ b ≤ 0xBF)

/-- Function `utf8.DecodeRune` where it succeeds: the character that starts the bytes and
the bytes after it, `none` when the bytes do not start with a valid UTF-8 sequence (the
library then reports `RuneError` with width 1). -/
def decodeRune : List Nat → Option (Char × List Nat)
  | [] => none
  | b0 :: rest =>
    if b0 < 0x80 then some (Char.ofNat b0, rest)
    else if 0xC2 ≤ b0 ∧ b0 ≤ 0xDF then
      match rest with
      | b1 :: r =>
        if isCont b1 then some (Char.ofNat ((b0 - 0xC0) * 64 + (b1 - 0x80)), r) else none
      | _ => none
    else if 0xE0 ≤ b0 ∧ b0 ≤ 0xEF then
      match rest with
      | b1 :: b2 :: r =>
        if (if b0 = 0xE0 then 0xA0 else 0x80) ≤ b1 ∧ b1 ≤ (if b0 = 0xED then 0x9F else 0xBF) ∧
            isCont b2 = true then
          some (Char.ofNat ((b0 - 0xE0) * 4096 + (b1 - 0x80) * 64 + (b2 - 0x80)), r)
        else none
      | _ => none
    else if 0xF0 ≤ b0 ∧ b0 ≤ 0xF4 then
      match rest with
      | b1 :: b2 :: b3 :: r =>
        if (if b0 = 0xF0 then 0x90 else 0x80) ≤ b1 ∧ b1 ≤ (if b0 = 0xF4 then 0x8F else 0xBF) ∧
            isCont b2 = true ∧ isCont b3 = true then
          some (Char.ofNat ((b0 - 0xF0) * 262144 + (b1 - 0x80) * 4096 + (b2 - 0x80) * 64 +
            (b3 - 0x80)), r)
        else none
      | _ => none
    else none

/-- How `json.Marshal` writes the bytes of a string: a valid character as `escapeChar`
writes it, a byte that starts no valid UTF-8 sequence as the escape of U+FFFD. The fuel
counts the bytes. -/
def escapeBytesAux : Nat → List Nat → List Char
  | 0, _ => []
  | _ + 1, [] => []
  | fuel + 1, b :: rest =>
    match decodeRune (b :: rest) with
    | some (c, rest') => escapeChar c ++ escapeBytesAux fuel rest'
    | none => ['\\', 'u', 'f', 'f', 'f', 'd'] ++ escapeBytesAux fuel rest

/-- The escaped text of a string given by its bytes, without the quotes. -/
def escapeBytes (b : List Nat) : List Char := escapeBytesAux b.length b

/-- Decimal digits of `n`, most significant first, in front of `acc`. -/
def decimalAux : Nat → Nat → List Char → List Char
  | 0, _, acc => acc
  | fuel + 1, n, acc =>
    if n < 10 then Char.ofNat (48 + n) :: acc
    else decimalAux fuel (n / 10) (Char.ofNat (48 + n % 10) :: acc)

/-- Decimal text of a natural number. -/
def decimal (n : Nat) : List Char := decimalAux (n + 1) n []

/-- Decimal text of an integer, as `strconv.AppendInt` writes it. -/
def encodeInt (n : Int) : List Char :=
  match n with
  | Int.ofNat m => decimal m
  | Int.negSucc m => '-' :: decimal (m + 1)

/-! Compact encoding; object entries are written in list order, the key order of the
unstructured maps built below. -/
mutual
/-- Text of a JSON value. -/
def encodeValue : JSON → List Char
  | .null => ['n', 'u', 'l', 'l']
  | .bool true => ['t', 'r', 'u', 'e']
  | .bool false => ['f', 'a', 'l', 's', 'e']
  | .num n => encodeInt n
  | .float lit => lit
  | .str s => encodeString s
  | .bytes b => '"' :: (escapeBytes b ++ ['"'])
  | .arr [] => ['[', ']']
  | .arr (x :: xs) => '[' :: (encodeValue x ++ encodeElems xs)
  | .obj [] => ['\x7b', '\x7d']
  | .obj ((k, v) :: kvs) => '\x7b' :: (encodeString k ++ ':' :: (encodeValue v ++ encodeFields kvs))
/-- Text of the remaining elements of an array and its closing bracket. -/
def encodeElems : List JSON → List Char
  | [] => [']']
  | x :: xs => ',' :: (encodeValue x ++ encodeElems xs)
/-- Text of the remaining entries of an object and its closing brace. -/
def encodeFields : List (List Char × JSON) → List Char
  | [] => ['\x7d']
  | (k, v) :: kvs => ',' :: (encodeString k ++ ':' :: (encodeValue v ++ encodeFields kvs))
end


/-- JSON insignificant whitespace. -/
def isWs (c : Char) : Bool := c = ' ' || c = '\t' || c = '\n' || c = '\r'

/-- Drops leading whitespace. -/
def skipWs : List Char → List Char
  | [] => []
  | c :: cs => if isWs c then skipWs cs else c :: cs

/-- Value of a hexadecimal digit, either case. -/
def hexVal (c : Char) : Option Nat :=
  if 48 ≤ c.toNat ∧ c.toNat ≤ 57 then some (c.toNat - 48)
  else if 97 ≤ c.toNat ∧ c.toNat ≤ 102 then some (c.toNat - 87)
  else if 65 ≤ c.toNat ∧ c.toNat ≤ 70 then some (c.toNat - 55)
  else none

/-- Reads the four hexadecimal digits of a `\\u` escape. -/
def parseHex4 : List Char → Option (Nat × List Char)
  | a :: b :: c :: d :: rest =>
    match hexVal a, hexVal b, hexVal c, hexVal d with
    | some a, some b, some c, some d => some (a * 4096 + b * 256 + c * 16 + d, rest)
    | _, _, _, _ => none
  | _ => none

/-- The low half of a surrogate pair that follows a high half `n`, if there is one. -/
def lowSurrogate (n : Nat) (cs : List Char) : Option (Nat × List Char) :=
  match cs with
  | c :: d :: rest =>
    if c = '\\' ∧ d = 'u' ∧ n < 0xDC00 then
      match parseHex4 rest with
      | some (m, rest') => if 0xDC00 ≤ m ∧ m < 0xE000 then some (m, rest') else none
      | none => none
    else none
  | _ => none

/-- The character a one-letter escape stands for. -/
def simpleEscape (e : Char) : Option Char :=
  if e = '"' then some '"'
  else if e = '\\' then some '\\'
  else if e = '/' then some '/'
  else if e = 'b' then some '\x08'
  else if e = 'f' then some '\x0c'
  else if e = 'n' then some '\n'
  else if e = 'r' then some '\r'
  else if e = 't' then some '\t'
  else none

/-- Reads a string literal after its opening quote: the decoded text and the input after
the closing quote. -/
def parseStringBody : Nat → List Char → Option (List Char × List Char)
  | 0, _ => none
  | _ + 1, [] => none
  | fuel + 1, c :: rest =>
    if c = '"' then some ([], rest)
    else if c = '\\' then
      match rest with
      | [] => none
      | e :: rest' =>
        if e = 'u' then
          match parseHex4 rest' with
          | none => none
          | some (n, rest'') =>
            if 0xD800 ≤ n ∧ n < 0xE000 then
              match lowSurrogate n rest'' with
              | some (m, rest3) =>
                match parseStringBody fuel rest3 with
                | some (s, r) =>
                  some (Char.ofNat (0x10000 + (n - 0xD800) * 0x400 + (m - 0xDC00)) :: s, r)
                | none => none
              | none =>
                match parseStringBody fuel rest'' with
                | some (s, r) => some (Char.ofNat 0xFFFD :: s, r)
                | none => none
            else
              match parseStringBody fuel rest'' with
              | some (s, r) => some (Char.ofNat n :: s, r)
              | none => none
        else
          match simpleEscape e with
          | none => none
          | some x =>
            match parseStringBody fuel rest' with
            | some (s, r) => some (x :: s, r)
            | none => none
    else if c.toNat < 32 then none
    else
      match parseStringBody fuel rest with
      | some (s, r) => some (c :: s, r)
      | none => none

/-- Reads a string literal after its opening quote, with fuel for the whole input. -/
def parseString (cs : List Char) : Option (List Char × List Char) :=
  parseStringBody (cs.length + 1) cs

/-- Splits off the leading run of decimal digits. -/
def spanDigits : List Char → List Char × List Char
  | [] => ([], [])
  | c :: cs =>
    if c.isDigit then ((c :: (spanDigits cs).1), (spanDigits cs).2) else ([], c :: cs)

/-- Value of a run of decimal digits. -/
def digitsToNat (ds : List Char) : Nat :=
  ds.foldl (fun a c => a * 10 + (c.toNat - 48)) 0

/-- Reads an optional fraction: a dot and at least one digit. -/
def parseFrac (cs : List Char) : Option (List Char × List Char) :=
  match cs with
  | [] => some ([], [])
  | c :: r =>
    if c = '.' then
      if (spanDigits r).1 = [] then none else some ('.' :: (spanDigits r).1, (spanDigits r).2)
    else some ([], c :: r)

/-- Reads an optional sign of an exponent. -/
def parseSign (cs : List Char) : List Char × List Char :=
  match cs with
  | [] => ([], [])
  | c :: r => if c = '+' ∨ c = '-' then ([c], r) else ([], c :: r)

/-- Reads an optional exponent: `e` or `E`, a sign, at least one digit. -/
def parseExp (cs : List Char) : Option (List Char × List Char) :=
  match cs with
  | [] => some ([], [])
  | c :: r =>
    if c = 'e' ∨ c = 'E' then
      let sr := parseSign r
      let dr := spanDigits sr.2
      if dr.1 = [] then none else some (c :: (sr.1 ++ dr.1), dr.2)
    else some ([], c :: r)

/-- Reads a number literal (the JSON grammar: no leading zeros, digits after `.` and after
the exponent mark). -/
def parseNumber (cs : List Char) : Option (JSON × List Char) :=
  let neg := cs.head? = some '-'
  let cs1 := if neg then cs.tail else cs
  let ip := spanDigits cs1
  if ip.1 = [] then none
  else if ip.1.head? = some '0' ∧ 1 < ip.1.length then none
  else
    match parseFrac ip.2 with
    | none => none
    | some (fr, r1) =>
      match parseExp r1 with
      | none => none
      | some (ex, r2) =>
        if fr = [] ∧ ex = [] then
          some (.num (if neg then - (digitsToNat ip.1 : Int) else (digitsToNat ip.1 : Int)), r2)
        else
          some (.float ((if neg then ['-'] else []) ++ ip.1 ++ fr ++ ex), r2)

/-- Drops the expected characters from the input, or fails. -/
def dropLit : List Char → List Char → Option (List Char)
  | [], cs => some cs
  | _ :: _, [] => none
  | p :: ps, c :: cs => if p = c then dropLit ps cs else none

mutual
/-- Reads one JSON value; whitespace may precede it. -/
def parseValue : Nat → List Char → Option (JSON × List Char)
  | 0, _ => none
  | fuel + 1, cs =>
    match skipWs cs with
    | [] => none
    | c :: rest =>
      if c = '\x7b' then
        match skipWs rest with
        | [] => none
        | d :: rest' =>
          if d = '\x7d' then some (.obj [], rest')
          else
            match parseFields fuel (d :: rest') with
            | some (kvs, r) => some (.obj kvs, r)
            | none => none
      else if c = '[' then
        match skipWs rest with
        | [] => none
        | d :: rest' =>
          if d = ']' then some (.arr [], rest')
          else
            match parseElems fuel (d :: rest') with
            | some (xs, r) => some (.arr xs, r)
            | none => none
      else if c = '"' then
        match parseString rest with
        | some (s, r) => some (.str s, r)
        | none => none
      else if c = 't' then (dropLit ['r', 'u', 'e'] rest).map (fun r => (.bool true, r))
      else if c = 'f' then (dropLit ['a', 'l', 's', 'e'] rest).map (fun r => (.bool false, r))
      else if c = 'n' then (dropLit ['u', 'l', 'l'] rest).map (fun r => (.null, r))
      else parseNumber (c :: rest)
/-- Reads the entries of an object up to its closing brace. -/
def parseFields : Nat → List Char → Option (List (List Char × JSON) × List Char)
  | 0, _ => none
  | fuel + 1, cs =>
    match skipWs cs with
    | [] => none
    | c :: rest =>
      if c = '"' then
        match parseString rest with
        | none => none
        | some (k, r1) =>
          match skipWs r1 with
          | [] => none
          | c1 :: r2 =>
            if c1 = ':' then
              match parseValue fuel r2 with
              | none => none
              | some (v, r3) =>
                match skipWs r3 with
                | [] => none
                | c2 :: r4 =>
                  if c2 = ',' then
                    match parseFields fuel r4 with
                    | none => none
                    | some (kvs, r5) => some ((k, v) :: kvs, r5)
                  else if c2 = '\x7d' then some ([(k, v)], r4)
                  else none
            else none
      else none
/-- Reads the elements of an array up to its closing bracket. -/
def parseElems : Nat → List Char → Option (List JSON × List Char)
  | 0, _ => none
  | fuel + 1, cs =>
    match parseValue fuel cs with
    | none => none
    | some (v, r3) =>
      match skipWs r3 with
      | [] => none
      | c2 :: r4 =>
        if c2 = ',' then
          match parseElems fuel r4 with
          | none => none
          | some (xs, r5) => some (v :: xs, r5)
        else if c2 = ']' then some ([v], r4)
        else none
end

/-- Parses a whole JSON text. -/
def parseJSON (cs : List Char) : Option JSON :=
  match parseValue (cs.length + 1) cs with
  | some (v, rest) => if skipWs rest = [] then some v else none
  | none => none



/-- The library calls made by `MarshalData` on a source of type `S` and by `UnmarshalData`
on a target of type `T`. -/
structure JSONLib (S T : Type) where
  /-- Call `runtime.DefaultUnstructuredConverter.ToUnstructured(src)`. -/
  ToUnstructured : S → Except String (List (List Char × JSON))
  /-- Call `json.Marshal(u)`. -/
  Marshal : List (List Char × JSON) → Except String String
  /-- Call `json.Unmarshal([]byte(data), to)`: the target afterwards and the error. -/
  Unmarshal : String → T → T × Option String

/-! ## The stash -/

/-- DataAnnotation is the annotation that conversion webhooks use to retain the data in
case of down-conversion from the hub. -/
def DataAnnotation : String := "cluster.x-k8s.io/conversion-data"

/-- The payload `MarshalData` computes from `src` (lines 33-43), or its error. -/
def marshalPayload {S T : Type} (lib : JSONLib S T) (src : S) : Except String String :=
  match lib.ToUnstructured src with
  | .error e => .error ("failed to convert source to unstructured: " ++ e)
  | .ok u =>
    let u := deleteKey u "metadata".data
    match lib.Marshal u with
    | .error e => .error ("failed to marshal source object: " ++ e)
    | .ok data => .ok data

/-- MarshalData stores the source object as json data in the destination object
annotations map. Returns the error (`none` is `nil`) and `dst` afterwards. -/
def MarshalData {S T D : Type} (lib : JSONLib S T) (src : S) (dst : Object D) :
    Option String × Object D :=
  match marshalPayload lib src with
  | .error e => (some e, dst)
  | .ok data =>
    let annotations := dst.GetAnnotations
    let annotations := match annotations with
      | none => ([] : StrMap)
      | some m => m
    let annotations := StrMap.set annotations DataAnnotation data
    (none, dst.SetAnnotations (some annotations))

/-- What `UnmarshalData` returns and leaves behind. -/
structure UnmarshalResult (P T : Type) where
  found : Bool
  err : Option String
  frm : Object P
  target : T

/-- UnmarshalData tries to retrieve the data from the annotation and unmarshals it into
the object passed as input. -/
def UnmarshalData {S P T : Type} (lib : JSONLib S T) (frm : Object P) (target : T) :
    UnmarshalResult P T :=
  let annotations := frm.GetAnnotations
  match GoMap.get annotations DataAnnotation with
  | none => { found := false, err := none, frm := frm, target := target }
  | some data =>
    match lib.Unmarshal data target with
    | (target', some e) =>
      { found := false, err := some ("failed to unmarshal data annotation: " ++ e),
        frm := frm, target := target' }
    | (target', none) =>
      let annotations := annotations.map (fun m => StrMap.delete m DataAnnotation)
      { found := true, err := none, frm := frm.SetAnnotations annotations, target := target' }


/-! ## The test object of `utilconversion_test.go` -/

/-- Inlined `metav1.TypeMeta` (`json:",inline"`; fields `kind` and `apiVersion`, both
`omitempty`). -/
structure TypeMeta where
  Kind : String
  APIVersion : String
deriving DecidableEq, Repr

/-- Struct `TestObjectSpec`. `Field2` is a Go `int`. -/
structure TestObjectSpec where
  Field1 : String
  Field2 : Int
deriving DecidableEq, Repr

/-- Struct `TestObjectStatus`. -/
structure TestObjectStatus where
  Ready : Bool
deriving DecidableEq, Repr

/-- The fields of `TestObject` other than its `ObjectMeta`. -/
structure TestContent where
  TypeMeta : TypeMeta
  Spec : TestObjectSpec
  Status : TestObjectStatus
deriving DecidableEq, Repr

/-- TestObject is a simple test object that implements metav1.Object. -/
abbrev TestObject := Object TestContent

/-- The zero value `TestContent{}`. -/
def TestContent.zero : TestContent :=
  { TypeMeta := { Kind := "", APIVersion := "" }, Spec := { Field1 := "", Field2 := 0 },
    Status := { Ready := false } }

/-- The zero value `&TestObject{}`. -/
def TestObject.zero : TestObject := { Meta := ObjectMeta.zero, Content := TestContent.zero }

/-- Range of a Go `int` (64 bits). -/
def inInt64 (n : Int) : Bool := decide (-9223372036854775808 ≤ n ∧ n ≤ 9223372036854775807)

/-- A string field tagged `omitempty`. -/
def omitEmptyStr (key : String) (v : String) : List (List Char × JSON) :=
  if v = "" then [] else [(key.data, JSON.str v.data)]

/-- A `map[string]string` as an unstructured object. -/
def strMapToJSON (m : StrMap) : JSON :=
  JSON.obj (m.map (fun e => (e.1.data, JSON.str e.2.data)))

/-- A map field tagged `omitempty`: nil and empty maps are omitted. -/
def omitEmptyMap (key : String) (m : Option StrMap) : List (List Char × JSON) :=
  match m with
  | none => []
  | some [] => []
  | some (e :: l) => [(key.data, strMapToJSON (e :: l))]

/-- Unstructured form of the modelled `ObjectMeta` fields. -/
def ObjectMeta.toUnstructured (m : ObjectMeta) : JSON :=
  JSON.obj (omitEmptyMap "annotations" m.Annotations ++ omitEmptyMap "labels" m.Labels ++
    omitEmptyStr "name" m.Name ++ omitEmptyStr "namespace" m.Namespace)

/-- Fields `field1` and `field2`, both `omitempty`. -/
def TestObjectSpec.toUnstructured (s : TestObjectSpec) : List (List Char × JSON) :=
  omitEmptyStr "field1" s.Field1 ++
    (if s.Field2 = 0 then [] else [("field2".data, JSON.num s.Field2)])

/-- Field `ready`, `omitempty`. -/
def TestObjectStatus.toUnstructured (s : TestObjectStatus) : List (List Char × JSON) :=
  if s.Ready then [("ready".data, JSON.bool true)] else []

/-- Call `ToUnstructured` on a `*TestObject`, following the struct tags: `kind`, `apiVersion`
inlined and `omitempty`; `metadata`; `spec` and `status` tagged `omitempty,omitzero`.
Versions of the converter differ on `omitzero`: with `omitZero` a struct at its zero value is
left out, without it the struct is written as an empty object. Keys are in sorted order. -/
def TestObject.toUnstructured (omitZero : Bool) (o : TestObject) : List (List Char × JSON) :=
  omitEmptyStr "apiVersion" o.Content.TypeMeta.APIVersion ++
  omitEmptyStr "kind" o.Content.TypeMeta.Kind ++
  [("metadata".data, o.Meta.toUnstructured)] ++
  (if omitZero = true ∧ o.Content.Spec = { Field1 := "", Field2 := 0 } then []
    else [("spec".data, JSON.obj o.Content.Spec.toUnstructured)]) ++
  (if omitZero = true ∧ o.Content.Status = { Ready := false } then []
    else [("status".data, JSON.obj o.Content.Status.toUnstructured)])

/-- Case folding of a key character as far as it can meet an ASCII field name. -/
def foldChar (c : Char) : Char :=
  if 97 ≤ c.toNat ∧ c.toNat ≤ 122 then Char.ofNat (c.toNat - 32)
  else if c.toNat = 0x17F then 'S'
  else if c.toNat = 0x212A then 'K'
  else c

/-- Does the object key select the struct field with this JSON name (case-insensitive)? -/
def keyIs (k : List Char) (name : String) : Bool :=
  decide (k.map foldChar = name.data.map foldChar)

/-- The first error met is the one `json.Unmarshal` returns. -/
def firstErr (a b : Option String) : Option String :=
  match a with
  | some e => some e
  | none => b

/-- Decode into a `string`. -/
def decodeString (v : JSON) (old : String) : String × Option String :=
  match v with
  | JSON.str s => (String.mk s, none)
  | JSON.null => (old, none)
  | _ => (old, some "json: cannot unmarshal into Go value of type string")

/-- Decode into an `int`. -/
def decodeInt (v : JSON) (old : Int) : Int × Option String :=
  match v with
  | JSON.num n =>
    if inInt64 n then (n, none) else (old, some "json: cannot unmarshal number into Go value of type int")
  | JSON.null => (old, none)
  | _ => (old, some "json: cannot unmarshal into Go value of type int")

/-- Decode into a `bool`. -/
def decodeBool (v : JSON) (old : Bool) : Bool × Option String :=
  match v with
  | JSON.bool b => (b, none)
  | JSON.null => (old, none)
  | _ => (old, some "json: cannot unmarshal into Go value of type bool")

/-- Decode the entries of an object into a `map[string]string`. -/
def decodeMapFields : List (List Char × JSON) → StrMap → StrMap × Option String
  | [], m => (m, none)
  | (k, v) :: rest, m =>
    let r := decodeString v ""
    let r2 := decodeMapFields rest (StrMap.set m (String.mk k) r.1)
    (r2.1, firstErr r.2 r2.2)

/-- Decode into a `map[string]string` field. -/
def decodeStrMap (v : JSON) (old : Option StrMap) : Option StrMap × Option String :=
  match v with
  | JSON.obj kvs =>
    let r := decodeMapFields kvs (old.getD [])
    (some r.1, r.2)
  | JSON.null => (none, none)
  | _ => (old, some "json: cannot unmarshal into Go value of type map[string]string")

/-- Decode the entries of an object into an `ObjectMeta`. -/
def decodeMetaFields : List (List Char × JSON) → ObjectMeta → ObjectMeta × Option String
  | [], m => (m, none)
  | (k, v) :: rest, m =>
    let r : ObjectMeta × Option String :=
      if keyIs k "name" then ({ m with Name := (decodeString v m.Name).1 }, (decodeString v m.Name).2)
      else if keyIs k "namespace" then
        ({ m with Namespace := (decodeString v m.Namespace).1 }, (decodeString v m.Namespace).2)
      else if keyIs k "labels" then
        ({ m with Labels := (decodeStrMap v m.Labels).1 }, (decodeStrMap v m.Labels).2)
      else if keyIs k "annotations" then
        ({ m with Annotations := (decodeStrMap v m.Annotations).1 },
          (decodeStrMap v m.Annotations).2)
      else (m, none)
    let r2 := decodeMetaFields rest r.1
    (r2.1, firstErr r.2 r2.2)

/-- Decode into the `ObjectMeta` field. -/
def decodeMeta (v : JSON) (old : ObjectMeta) : ObjectMeta × Option String :=
  match v with
  | JSON.obj kvs => decodeMetaFields kvs old
  | JSON.null => (old, none)
  | _ => (old, some "json: cannot unmarshal into Go value of type v1.ObjectMeta")

/-- Decode the entries of an object into a `TestObjectSpec`. -/
def decodeSpecFields : List (List Char × JSON) → TestObjectSpec → TestObjectSpec × Option String
  | [], s => (s, none)
  | (k, v) :: rest, s =>
    let r : TestObjectSpec × Option String :=
      if keyIs k "field1" then
        ({ s with Field1 := (decodeString v s.Field1).1 }, (decodeString v s.Field1).2)
      else if keyIs k "field2" then
        ({ s with Field2 := (decodeInt v s.Field2).1 }, (decodeInt v s.Field2).2)
      else (s, none)
    let r2 := decodeSpecFields rest r.1
    (r2.1, firstErr r.2 r2.2)

/-- Decode into the `Spec` field. -/
def decodeSpec (v : JSON) (old : TestObjectSpec) : TestObjectSpec × Option String :=
  match v with
  | JSON.obj kvs => decodeSpecFields kvs old
  | JSON.null => (old, none)
  | _ => (old, some "json: cannot unmarshal into Go value of type TestObjectSpec")

/-- Decode the entries of an object into a `TestObjectStatus`. -/
def decodeStatusFields :
    List (List Char × JSON) → TestObjectStatus → TestObjectStatus × Option String
  | [], s => (s, none)
  | (k, v) :: rest, s =>
    let r : TestObjectStatus × Option String :=
      if keyIs k "ready" then ({ Ready := (decodeBool v s.Ready).1 }, (decodeBool v s.Ready).2)
      else (s, none)
    let r2 := decodeStatusFields rest r.1
    (r2.1, firstErr r.2 r2.2)

/-- Decode into the `Status` field. -/
def decodeStatus (v : JSON) (old : TestObjectStatus) : TestObjectStatus × Option String :=
  match v with
  | JSON.obj kvs => decodeStatusFields kvs old
  | JSON.null => (old, none)
  | _ => (old, some "json: cannot unmarshal into Go value of type TestObjectStatus")

/-- Decode the entries of the top-level object into a `TestObject`, in document order;
unknown keys are skipped. -/
def decodeObjectFields : List (List Char × JSON) → TestObject → TestObject × Option String
  | [], o => (o, none)
  | (k, v) :: rest, o =>
    let r : TestObject × Option String :=
      if keyIs k "kind" then
        ({ o with Content := { o.Content with TypeMeta :=
            { o.Content.TypeMeta with Kind := (decodeString v o.Content.TypeMeta.Kind).1 } } },
          (decodeString v o.Content.TypeMeta.Kind).2)
      else if keyIs k "apiVersion" then
        ({ o with Content := { o.Content with TypeMeta :=
            { o.Content.TypeMeta with
              APIVersion := (decodeString v o.Content.TypeMeta.APIVersion).1 } } },
          (decodeString v o.Content.TypeMeta.APIVersion).2)
      else if keyIs k "metadata" then
        ({ o with Meta := (decodeMeta v o.Meta).1 }, (decodeMeta v o.Meta).2)
      else if keyIs k "spec" then
        ({ o with Content := { o.Content with Spec := (decodeSpec v o.Content.Spec).1 } },
          (decodeSpec v o.Content.Spec).2)
      else if keyIs k "status" then
        ({ o with Content := { o.Content with Status := (decodeStatus v o.Content.Status).1 } },
          (decodeStatus v o.Content.Status).2)
      else (o, none)
    let r2 := decodeObjectFields rest r.1
    (r2.1, firstErr r.2 r2.2)

/-- Decode a parsed JSON text into a `*TestObject`: an object fills the fields it names,
`null` has no effect, anything else is a type error. -/
def decodeTestObject (v : JSON) (old : TestObject) : TestObject × Option String :=
  match v with
  | JSON.obj kvs => decodeObjectFields kvs old
  | JSON.null => (old, none)
  | _ => (old, some "json: cannot unmarshal into Go value of type TestObject")

/-- Call `json.Unmarshal(data, to)` with `to` a `*TestObject`: a text that is not valid JSON
is rejected before the target is touched. -/
def unmarshalTestObject (data : String) (target : TestObject) : TestObject × Option String :=
  match parseJSON data.data with
  | none => (target, some "invalid character looking for beginning of value")
  | some v => decodeTestObject v target

/-- The library calls at the types of the tests: source and target are `*TestObject`. -/
def testLib (omitZero : Bool) : JSONLib TestObject TestObject :=
  { ToUnstructured := fun o => Except.ok (o.toUnstructured omitZero)
    Marshal := fun u => Except.ok (String.mk (encodeValue (JSON.obj u)))
    Unmarshal := unmarshalTestObject }

/-- The source of test "should marshal source object to destination annotations". -/
def testSrc : TestObject :=
  { Meta := { Name := "test-object", Namespace := "default",
              Labels := some [("label1", "value1")], Annotations := none }
    Content := { TypeMeta := { Kind := "", APIVersion := "" }
                 Spec := { Field1 := "test-value", Field2 := 42 }
                 Status := { Ready := true } } }

/-- The destination of the same test. -/
def testDst : TestObject :=
  { Meta := { Name := "test-object-dst", Namespace := "default", Labels := none,
              Annotations := none }
    Content := TestContent.zero }

/-- A destination that already carries an unrelated annotation and an older stash. -/
def annotatedDst : TestObject :=
  { Meta := { Name := "", Namespace := "", Labels := none,
              Annotations := some [("existing-annotation", "existing-value"),
                                   ( DataAnnotation, "stale")] }
    Content := TestContent.zero }

/-- An object holding a stash next to another annotation, as left by `MarshalData` in test
"should preserve other annotations after unmarshaling". -/
def stashedObject : TestObject :=
  { Meta := { Name := "", Namespace := "", Labels := none,
              Annotations := some [( DataAnnotation, "\x7b\"spec\":\x7b\"field1\":\"test\"\x7d\x7d"),
                                   ("other-annotation", "other-value")] }
    Content := TestContent.zero }

/-- The source of test "should return error for invalid JSON". -/
def invalidObject : TestObject :=
  { Meta := { Name := "", Namespace := "", Labels := none,
              Annotations := some [( DataAnnotation, "invalid-json")] }
    Content := TestContent.zero }

/-- The source of test "should return false when annotation doesn't exist". -/
def plainObject : TestObject :=
  { Meta := { Name := "", Namespace := "", Labels := none,
              Annotations := some [("other-annotation", "value")] }
    Content := TestContent.zero }

/-- What may follow a value inside a compact JSON text: the end, or `,`, `}` or `]`. -/
def delimited : List Char → Bool
  | [] => true
  | c :: _ => c = ',' || c = '\x7d' || c = ']'

mutual
/-- No number with a fraction or an exponent and no string given by its bytes occurs in the
tree: the trees that the parser returns for their own encoding. -/
def JSON.noFloat : JSON → Bool
  | .float _ => false
  | .bytes _ => false
  | .arr xs => noFloatList xs
  | .obj kvs => noFloatFields kvs
  | _ => true
/-- No element holds such a number. -/
def noFloatList : List JSON → Bool
  | [] => true
  | x :: xs => x.noFloat && noFloatList xs
/-- No entry holds such a number. -/
def noFloatFields : List (List Char × JSON) → Bool
  | [] => true
  | (_, v) :: kvs => v.noFloat && noFloatFields kvs
end

mutual
/-- Fuel that lets `parseValue` read the encoding of the tree. -/
def JSON.fuel : JSON → Nat
  | .arr xs => 1 + fuelList xs
  | .obj kvs => 1 + fuelFields kvs
  | _ => 1
/-- Fuel that lets `parseElems` read the elements. -/
def fuelList : List JSON → Nat
  | [] => 0
  | x :: xs => 1 + x.fuel + fuelList xs
/-- Fuel that lets `parseFields` read the entries. -/
def fuelFields : List (List Char × JSON) → Nat
  | [] => 0
  | (_, v) :: kvs => 1 + v.fuel + fuelFields kvs
end

/-- The unstructured form of the fields outside `metadata`: what `MarshalData` serializes
for a `*TestObject`. -/
def TestContent.toUnstructured (omitZero : Bool) (c : TestContent) : List (List Char × JSON) :=
  omitEmptyStr "apiVersion" c.TypeMeta.APIVersion ++
  omitEmptyStr "kind" c.TypeMeta.Kind ++
  (if omitZero = true ∧ c.Spec = { Field1 := "", Field2 := 0 } then []
    else [("spec".data, JSON.obj c.Spec.toUnstructured)]) ++
  (if omitZero = true ∧ c.Status = { Ready := false } then []
    else [("status".data, JSON.obj c.Status.toUnstructured)])

/-- Check `strings.Contains(s, sub)` behind gomega's `ContainSubstring`. -/
def containsSubstring (s sub : String) : Prop := sub.data <:+: s.data

/-- A source whose namespace is also the value of a spec field. -/
def namesakeSrc : TestObject :=
  { Meta := { Name := "test-object", Namespace := "default",
              Labels := some [("label1", "value1")], Annotations := none }
    Content := { TypeMeta := { Kind := "", APIVersion := "" }
                 Spec := { Field1 := "default", Field2 := 42 }
                 Status := { Ready := true } } }

/-! ## The round-trip harness

The harness runs against objects it only reaches through interfaces.  Objects are
references `Obj` into a world `W`; every call that leaves `utilconversion.go` (deep copies,
the fuzzer, the conversions, the map deletion, the equality test, the caller's hook) is a
function on the world. -/

/-- Why a sub-test of `FuzzTestFunc` stops failed. -/
inductive Failure where
  /-- Message "input.Spoke does not implement conversion.Convertible". -/
  | notConvertible
  /-- Message "input.Hub does not implement conversion.Hub". -/
  | notHub
  /-- The spoke's `ConvertTo` returned an error. -/
  | convertTo (err : String)
  /-- The spoke's `ConvertFrom` returned an error. -/
  | convertFrom (err : String)
  /-- The assertion `spokeAfter.(metav1.Object)` panicked. -/
  | notMetaObject
  /-- The values before and after differ: `g.Expect(false).To(gomega.BeTrue(), diff)`. -/
  | mismatch
deriving DecidableEq, Repr

/-- FuzzTestFuncInput contains input parameters for the FuzzTestFunc function. -/
structure FuzzTestFuncInput (W Obj Sch Fn : Type) where
  Scheme : Option Sch
  Hub : Obj
  HubAfterMutation : Option (Obj → W → W)
  Spoke : Obj
  SpokeAfterMutation : Option (Obj → W → W)
  SkipSpokeAnnotationCleanup : Bool
  FuzzerFuncs : Fn
  N : Option Int

/-- The calls the harness makes outside `FuzzTestFunc`. -/
structure Runtime (W Obj Sch Fn Fz : Type) where
  /-- The global `scheme.Scheme`. -/
  defaultScheme : Sch
  /-- Call `GetFuzzer(scheme, funcs...)`: a freshly seeded filler. -/
  GetFuzzer : Sch → Fn → W → Fz × W
  /-- Expression `x.DeepCopyObject().(conversion.Convertible)`; `none` when the assertion
  fails. -/
  DeepCopyConvertible : Obj → W → Option Obj × W
  /-- Expression `x.DeepCopyObject().(conversion.Hub)`; `none` when the assertion fails. -/
  DeepCopyHub : Obj → W → Option Obj × W
  /-- Call `fuzzer.Fill(x)`. -/
  Fill : Fz → Obj → W → W
  /-- Call `spoke.ConvertTo(hub)`: the error and the world afterwards. -/
  ConvertTo : Obj → Obj → W → Option String × W
  /-- Call `spoke.ConvertFrom(hub)`. -/
  ConvertFrom : Obj → Obj → W → Option String × W
  /-- Does the assertion `x.(metav1.Object)` hold? -/
  IsMetaObject : Obj → W → Bool
  /-- Statement `delete(x.GetAnnotations(), key)`. -/
  DeleteAnnotation : Obj → String → W → W
  /-- Call `apiequality.Semantic.DeepEqual(a, b)`. -/
  SemanticDeepEqual : Obj → Obj → W → Bool

/-- Library `ptr.Deref(p, def)`. -/
def ptrDeref (p : Option Int) (d : Int) : Int :=
  match p with
  | some v => v
  | none => d

/-- One pass through the body of the spoke-hub-spoke loop (lines 150-185): `none` when the
iteration passes, and the world afterwards. -/
def spokeHubSpokeIteration {W Obj Sch Fn Fz : Type} (rt : Runtime W Obj Sch Fn Fz)
    (input : FuzzTestFuncInput W Obj Sch Fn) (fuzzer : Fz) (w : W) : Option Failure × W :=
  match rt.DeepCopyConvertible input.Spoke w with
  | (none, w) => (some Failure.notConvertible, w)
  | (some spokeBefore, w) =>
    let w := rt.Fill fuzzer spokeBefore w
    match rt.DeepCopyHub input.Hub w with
    | (none, w) => (some Failure.notHub, w)
    | (some hubCopy, w) =>
      match rt.ConvertTo spokeBefore hubCopy w with
      | (some err, w) => (some (Failure.convertTo err), w)
      | (none, w) =>
        match rt.DeepCopyConvertible input.Spoke w with
        | (none, w) => (some Failure.notConvertible, w)
        | (some spokeAfter, w) =>
          match rt.ConvertFrom spokeAfter hubCopy w with
          | (some err, w) => (some (Failure.convertFrom err), w)
          | (none, w) =>
            if input.SkipSpokeAnnotationCleanup = false ∧ rt.IsMetaObject spokeAfter w = false then
              (some Failure.notMetaObject, w)
            else
              let w := if input.SkipSpokeAnnotationCleanup then w
                else rt.DeleteAnnotation spokeAfter DataAnnotation w
              let w := match input.SpokeAfterMutation with
                | some mutate => mutate spokeAfter w
                | none => w
              if rt.SemanticDeepEqual spokeBefore spokeAfter w then (none, w)
              else (some Failure.mismatch, w)

/-- One pass through the body of the hub-spoke-hub loop (lines 193-217). -/
def hubSpokeHubIteration {W Obj Sch Fn Fz : Type} (rt : Runtime W Obj Sch Fn Fz)
    (input : FuzzTestFuncInput W Obj Sch Fn) (fuzzer : Fz) (w : W) : Option Failure × W :=
  match rt.DeepCopyHub input.Hub w with
  | (none, w) => (some Failure.notHub, w)
  | (some hubBefore, w) =>
    let w := rt.Fill fuzzer hubBefore w
    match rt.DeepCopyConvertible input.Spoke w with
    | (none, w) => (some Failure.notConvertible, w)
    | (some dstCopy, w) =>
      match rt.ConvertFrom dstCopy hubBefore w with
      | (some err, w) => (some (Failure.convertFrom err), w)
      | (none, w) =>
        match rt.DeepCopyHub input.Hub w with
        | (none, w) => (some Failure.notHub, w)
        | (some hubAfter, w) =>
          match rt.ConvertTo dstCopy hubAfter w with
          | (some err, w) => (some (Failure.convertTo err), w)
          | (none, w) =>
            if rt.SemanticDeepEqual hubBefore hubAfter w then (none, w)
            else (some Failure.mismatch, w)

/-- How a sub-test ended: its failure if any, the world it left, and how many iterations of
its loop were entered. -/
structure PhaseResult (W : Type) where
  failure : Option Failure
  world : W
  ran : Nat

/-- The loop `for range n`: a failed expectation or `t.Fatalf` ends the sub-test at once. -/
def runIterations {W : Type} (iter : W → Option Failure × W) : Nat → W → PhaseResult W
  | 0, w => { failure := none, world := w, ran := 0 }
  | n + 1, w =>
    match iter w with
    | (some f, w') => { failure := some f, world := w', ran := 1 }
    | (none, w') =>
      { failure := (runIterations iter n w').failure, world := (runIterations iter n w').world,
        ran := (runIterations iter n w').ran + 1 }

/-- The number of iterations of each loop: `ptr.Deref(input.N, 10000)`, none when that is
not positive. -/
def iterationCount {W Obj Sch Fn : Type} (input : FuzzTestFuncInput W Obj Sch Fn) : Nat :=
  (ptrDeref input.N 10000).toNat

/-- The scheme after lines 139-141. -/
def schemeOf {W Obj Sch Fn Fz : Type} (rt : Runtime W Obj Sch Fn Fz)
    (input : FuzzTestFuncInput W Obj Sch Fn) : Sch :=
  match input.Scheme with
  | some s => s
  | none => rt.defaultScheme

/-- Sub-test "spoke-hub-spoke" (lines 145-187). -/
def spokeHubSpoke {W Obj Sch Fn Fz : Type} (rt : Runtime W Obj Sch Fn Fz)
    (input : FuzzTestFuncInput W Obj Sch Fn) (w : W) : PhaseResult W :=
  runIterations
    (spokeHubSpokeIteration rt input (rt.GetFuzzer (schemeOf rt input) input.FuzzerFuncs w).1)
    (iterationCount input) (rt.GetFuzzer (schemeOf rt input) input.FuzzerFuncs w).2

/-- Sub-test "hub-spoke-hub" (lines 188-219). -/
def hubSpokeHub {W Obj Sch Fn Fz : Type} (rt : Runtime W Obj Sch Fn Fz)
    (input : FuzzTestFuncInput W Obj Sch Fn) (w : W) : PhaseResult W :=
  runIterations
    (hubSpokeHubIteration rt input (rt.GetFuzzer (schemeOf rt input) input.FuzzerFuncs w).1)
    (iterationCount input) (rt.GetFuzzer (schemeOf rt input) input.FuzzerFuncs w).2

/-- FuzzTestFunc returns a new testing function to be used in tests to make sure
conversions between the Hub version of an object and an older version aren't lossy.
The two sub-tests run one after the other; a panic in the first leaves no second. -/
def FuzzTestFunc {W Obj Sch Fn Fz : Type} (rt : Runtime W Obj Sch Fn Fz)
    (input : FuzzTestFuncInput W Obj Sch Fn) (w : W) :
    PhaseResult W × Option (PhaseResult W) :=
  if (spokeHubSpoke rt input w).failure = some Failure.notMetaObject then
    (spokeHubSpoke rt input w, none)
  else
    (spokeHubSpoke rt input w, some (hubSpokeHub rt input (spokeHubSpoke rt input w).world))

/-- The world at the start of iteration `i` when the iterations before it passed. -/
def worldAt {W : Type} (iter : W → Option Failure × W) : Nat → W → W
  | 0, w => w
  | i + 1, w => worldAt iter i (iter w).2

/-- The spoke-side normalization as the specification words it: removal of the
`DataAnnotation` key from the spoke's annotations unless `SkipSpokeAnnotationCleanup` is
set, then `SpokeAfterMutation` when it is configured. -/
def normalizeSpokeAfter {W Obj Sch Fn Fz : Type} (rt : Runtime W Obj Sch Fn Fz)
    (input : FuzzTestFuncInput W Obj Sch Fn) (spokeAfter : Obj) (w : W) : W :=
  let cleaned := if input.SkipSpokeAnnotationCleanup = true then w
    else rt.DeleteAnnotation spokeAfter DataAnnotation w
  match input.SpokeAfterMutation with
  | some mutate => mutate spokeAfter cleaned
  | none => cleaned

/-- What "the sub-test runs `n` iterations of `iter` and stops at the first failure" means
for a result `r` obtained from the world `w`. -/
def RunsFailFast {W : Type} (iter : W → Option Failure × W) (n : Nat) (w : W)
    (r : PhaseResult W) : Prop :=
  (r.failure = none ↔ ∀ i, i < n → (iter (worldAt iter i w)).1 = none) ∧
  (r.failure = none → r.ran = n) ∧
  (∀ i f, i < n → (∀ j, j < i → (iter (worldAt iter j w)).1 = none) →
    (iter (worldAt iter i w)).1 = some f →
    r.failure = some f ∧ r.ran = i + 1 ∧ r.world = (iter (worldAt iter i w)).2)

/-! ### A small runtime to run the harness on

Objects live in a list and a reference is an index; spoke and hub are both `TestObject`s.
`ConvertTo` takes the stash out of the spoke with `UnmarshalData` and copies the spoke, with
the restored content when there was a stash, into the hub; `ConvertFrom` copies the hub into
the spoke and stashes the hub with `MarshalData`. -/

/-- A world of test objects and the number of values the fuzzer has produced. -/
structure TestWorld where
  objs : List TestObject
  draws : Nat
deriving DecidableEq, Repr

/-- Dereference; a dangling reference reads as the zero object. -/
def TestWorld.get (w : TestWorld) (r : Nat) : TestObject :=
  match w.objs.get? r with
  | some o => o
  | none => TestObject.zero

/-- Assign through a reference. -/
def TestWorld.put (w : TestWorld) (r : Nat) (o : TestObject) : TestWorld :=
  { w with objs := w.objs.set r o }

/-- The value the fuzzer produces at its `n`-th draw. -/
def sampleObject (n : Nat) : TestObject :=
  { Meta := { Name := "fuzzed", Namespace := "default", Labels := none, Annotations := none }
    Content := { TypeMeta := { Kind := "", APIVersion := "" }
                 Spec := { Field1 := "v", Field2 := (n : Int) }
                 Status := { Ready := decide (n % 2 = 0) } } }

/-- A nil map and an empty map are the same to `Semantic.DeepEqual`. -/
def normalizeMap (m : Option StrMap) : Option StrMap :=
  match m with
  | some [] => none
  | other => other

/-- Semantic equality of two test objects. -/
def semanticEqual (a b : TestObject) : Bool :=
  decide (a.Meta.Name = b.Meta.Name ∧ a.Meta.Namespace = b.Meta.Namespace ∧
    normalizeMap a.Meta.Labels = normalizeMap b.Meta.Labels ∧
    normalizeMap a.Meta.Annotations = normalizeMap b.Meta.Annotations ∧
    a.Content = b.Content)

/-- The runtime over `TestWorld`. -/
def testRuntime : Runtime TestWorld Nat Unit Unit Unit :=
  { defaultScheme := ()
    GetFuzzer := fun _ _ w => ((), w)
    DeepCopyConvertible := fun r w => (some w.objs.length, { w with objs := w.objs ++ [w.get r] })
    DeepCopyHub := fun r w => (some w.objs.length, { w with objs := w.objs ++ [w.get r] })
    Fill := fun _ r w => { objs := w.objs.set r (sampleObject w.draws), draws := w.draws + 1 }
    ConvertTo := fun s h w =>
      match UnmarshalData (testLib true) (w.get s) TestObject.zero with
      | { found := true, err := e, frm := spoke, target := restored } =>
        (e, (w.put s spoke).put h { Meta := spoke.Meta, Content := restored.Content })
      | { found := false, err := e, frm := spoke, target := _ } =>
        (e, (w.put s spoke).put h spoke)
    ConvertFrom := fun s h w =>
      match MarshalData (testLib true) (w.get h) (w.get h) with
      | (e, spoke) => (e, w.put s spoke)
    IsMetaObject := fun _ _ => true
    DeleteAnnotation := fun r k w =>
      w.put r ((w.get r).SetAnnotations
        ((w.get r).GetAnnotations.map (fun m => StrMap.delete m k)))
    SemanticDeepEqual := fun a b w => semanticEqual (w.get a) (w.get b) }

/-- An input over the small runtime: hub at reference 0, spoke at reference 1, three
iterations. -/
def testInput (skip : Bool) : FuzzTestFuncInput TestWorld Nat Unit Unit :=
  { Scheme := none, Hub := 0, HubAfterMutation := none, Spoke := 1,
    SpokeAfterMutation := none, SkipSpokeAnnotationCleanup := skip, FuzzerFuncs := (),
    N := some 3 }

/-- The world before the test: the two reference objects. -/
def testWorld : TestWorld := { objs := [TestObject.zero, TestObject.zero], draws := 0 }

/-- The worlds of the first spoke-hub-spoke iteration on `testWorld`: after the spoke copy
(reference 2), after `Fill` and the hub copy (reference 3), after `ConvertTo`, after the
second spoke copy (reference 4), after `ConvertFrom`. -/
def spokeRun1 : TestWorld := (testRuntime.DeepCopyConvertible 1 testWorld).2

/-- See `spokeRun1`. -/
def spokeRun2 : TestWorld := (testRuntime.DeepCopyHub 0 (testRuntime.Fill () 2 spokeRun1)).2

/-- See `spokeRun1`. -/
def spokeRun3 : TestWorld := (testRuntime.ConvertTo 2 3 spokeRun2).2

/-- See `spokeRun1`. -/
def spokeRun4 : TestWorld := (testRuntime.DeepCopyConvertible 1 spokeRun3).2

/-- See `spokeRun1`. -/
def spokeRun5 : TestWorld := (testRuntime.ConvertFrom 4 3 spokeRun4).2

/-- The worlds of the first hub-spoke-hub iteration on `testWorld`: after the hub copy
(reference 2), after `Fill` and the spoke copy (reference 3), after `ConvertFrom`, after the
second hub copy (reference 4), after `ConvertTo`. -/
def hubRun1 : TestWorld := (testRuntime.DeepCopyHub 0 testWorld).2

/-- See `hubRun1`. -/
def hubRun2 : TestWorld := (testRuntime.DeepCopyConvertible 1 (testRuntime.Fill () 2 hubRun1)).2

/-- See `hubRun1`. -/
def hubRun3 : TestWorld := (testRuntime.ConvertFrom 3 2 hubRun2).2

/-- See `hubRun1`. -/
def hubRun4 : TestWorld := (testRuntime.DeepCopyHub 0 hubRun3).2

/-- See `hubRun1`. -/
def hubRun5 : TestWorld := (testRuntime.ConvertTo 3 4 hubRun4).2

/-! ## The example conversions (`_example/api/v1alpha1/conversion.go`) -/

/-- Modelled from the spec: the declaration of the v1alpha1 `MyResourceSpec` (its `types.go`)
is not among the sources. The fields are the ones the conversions, the fuzzer and the test
read and write: `Name` (a `string`), `Replicas` (an `int32`) and `OldField` (a `*string`,
`none` is nil). -/
structure v1alpha1.MyResourceSpec where
  Name : String
  Replicas : Int
  OldField : Option String
deriving DecidableEq, Repr

/-- MyResourceSpec defines the desired state of MyResource (the hub version, `v1`). -/
structure v1.MyResourceSpec where
  Name : String
  Replicas : Int
  NewField : String
deriving DecidableEq, Repr

/-- The zero value `v1.MyResourceSpec{}`. -/
def v1.MyResourceSpec.zero : v1.MyResourceSpec := { Name := "", Replicas := 0, NewField := "" }

/-- Conversion of the spoke spec into `out`: `OldField` in v1alpha1 was renamed to `NewField`
in v1, and a nil `OldField` leaves `out.NewField` as it is. Returns the error (always nil)
and `out` afterwards. -/
def Convert_v1alpha1_MyResourceSpec_To_v1_MyResourceSpec (inp : v1alpha1.MyResourceSpec)
    (out : v1.MyResourceSpec) : Option String × v1.MyResourceSpec :=
  let out := { out with Name := inp.Name }
  let out := { out with Replicas := inp.Replicas }
  let out := match inp.OldField with
    | some old => { out with NewField := old }
    | none => out
  (none, out)

/-- Conversion of the hub spec into `out`: `OldField` always points to `NewField`, even if it
is the empty string. Returns the error (always nil) and `out` afterwards. -/
def Convert_v1_MyResourceSpec_To_v1alpha1_MyResourceSpec (inp : v1.MyResourceSpec)
    (out : v1alpha1.MyResourceSpec) : Option String × v1alpha1.MyResourceSpec :=
  let out := { out with Name := inp.Name }
  let out := { out with Replicas := inp.Replicas }
  let out := { out with OldField := some inp.NewField }
  (none, out)

/-- The part of the test's `SpokeAfterMutation` that touches the spec
(`conversion_test.go`, lines 34-36): an `OldField` pointing to the empty string becomes
nil. -/
def normalizeOldField (spec : v1alpha1.MyResourceSpec) : v1alpha1.MyResourceSpec :=
  match spec.OldField with
  | some old => if old = "" then { spec with OldField := none } else spec
  | none => spec

/-- The fuzzer for the v1alpha1 `MyResourceSpec` (`fuzzers.go`, lines 14-32), as a function
of what the random source yields: the filled name and replicas, the coin `c.Bool()` and the
filled string. -/
def fuzzMyResourceSpec (name : String) (replicas : Int) (coin : Bool) (str : String)
    (inp : v1alpha1.MyResourceSpec) : v1alpha1.MyResourceSpec :=
  let inp := { inp with Name := name }
  let inp := { inp with Replicas := replicas }
  if coin then
    if str ≠ "" then { inp with OldField := some str }
    else { inp with OldField := none }
  else { inp with OldField := none }

/-- A spoke spec without an `OldField`. -/
def unsetSpec : v1alpha1.MyResourceSpec := { Name := "web", Replicas := 3, OldField := none }

/-! ## The test object with its strings as bytes

A Go `string` holds arbitrary bytes. `RawTestObject` is the `TestObject` of the tests with
its string fields outside the metadata given by their bytes, and `rawLib` the library calls
on it: the unstructured form carries the bytes, `json.Marshal` writes them with
`escapeBytes`, and `json.Unmarshal` stores the UTF-8 bytes of the decoded text. -/

/-- The UTF-8 bytes of a character (`utf8.EncodeRune`). -/
def utf8Encode (c : Char) : List Nat :=
  if c.toNat < 0x80 then [c.toNat]
  else if c.toNat < 0x800 then [0xC0 + c.toNat / 64, 0x80 + c.toNat % 64]
  else if c.toNat < 0x10000 then
    [0xE0 + c.toNat / 4096, 0x80 + c.toNat / 64 % 64, 0x80 + c.toNat % 64]
  else
    [0xF0 + c.toNat / 262144, 0x80 + c.toNat / 4096 % 64, 0x80 + c.toNat / 64 % 64,
      0x80 + c.toNat % 64]

/-- The UTF-8 bytes of a text. -/
def textBytes : List Char → List Nat
  | [] => []
  | c :: cs => utf8Encode c ++ textBytes cs

/-- Inlined `metav1.TypeMeta`, strings as bytes. -/
structure RawTypeMeta where
  Kind : List Nat
  APIVersion : List Nat
deriving DecidableEq, Repr

/-- Struct `TestObjectSpec`, `Field1` as bytes. -/
structure RawTestObjectSpec where
  Field1 : List Nat
  Field2 : Int
deriving DecidableEq, Repr

/-- The fields of `TestObject` other than its `ObjectMeta`, strings as bytes. -/
structure RawTestContent where
  TypeMeta : RawTypeMeta
  Spec : RawTestObjectSpec
  Status : TestObjectStatus
deriving DecidableEq, Repr

/-- The `TestObject` of the tests, its strings outside the metadata as bytes. -/
abbrev RawTestObject := Object RawTestContent

/-- The zero value `&TestObject{}`. -/
def RawTestObject.zero : RawTestObject :=
  { Meta := ObjectMeta.zero
    Content := { TypeMeta := { Kind := [], APIVersion := [] }, Spec := { Field1 := [], Field2 := 0 },
                 Status := { Ready := false } } }

/-- A string field tagged `omitempty`, given by its bytes. -/
def omitEmptyBytes (key : String) (v : List Nat) : List (List Char × JSON) :=
  if v = [] then [] else [(key.data, JSON.bytes v)]

/-- Fields `field1` and `field2`, both `omitempty`. -/
def RawTestObjectSpec.toUnstructured (s : RawTestObjectSpec) : List (List Char × JSON) :=
  omitEmptyBytes "field1" s.Field1 ++
    (if s.Field2 = 0 then [] else [("field2".data, JSON.num s.Field2)])

/-- Call `ToUnstructured` on a `*TestObject` whose strings are given by their bytes; see
`TestObject.toUnstructured`. -/
def RawTestObject.toUnstructured (omitZero : Bool) (o : RawTestObject) :
    List (List Char × JSON) :=
  omitEmptyBytes "apiVersion" o.Content.TypeMeta.APIVersion ++
  omitEmptyBytes "kind" o.Content.TypeMeta.Kind ++
  [("metadata".data, o.Meta.toUnstructured)] ++
  (if omitZero = true ∧ o.Content.Spec = { Field1 := [], Field2 := 0 } then []
    else [("spec".data, JSON.obj o.Content.Spec.toUnstructured)]) ++
  (if omitZero = true ∧ o.Content.Status = { Ready := false } then []
    else [("status".data, JSON.obj o.Content.Status.toUnstructured)])

/-- Decode into a `string` kept as bytes: the UTF-8 bytes of the decoded text. -/
def decodeByteString (v : JSON) (old : List Nat) : List Nat × Option String :=
  match v with
  | JSON.str s => (textBytes s, none)
  | JSON.null => (old, none)
  | _ => (old, some "json: cannot unmarshal into Go value of type string")

/-- Decode the entries of an object into a `TestObjectSpec` with `Field1` as bytes. -/
def decodeRawSpecFields :
    List (List Char × JSON) → RawTestObjectSpec → RawTestObjectSpec × Option String
  | [], s => (s, none)
  | (k, v) :: rest, s =>
    let r : RawTestObjectSpec × Option String :=
      if keyIs k "field1" then
        ({ s with Field1 := (decodeByteString v s.Field1).1 }, (decodeByteString v s.Field1).2)
      else if keyIs k "field2" then
        ({ s with Field2 := (decodeInt v s.Field2).1 }, (decodeInt v s.Field2).2)
      else (s, none)
    let r2 := decodeRawSpecFields rest r.1
    (r2.1, firstErr r.2 r2.2)

/-- Decode into the `Spec` field. -/
def decodeRawSpec (v : JSON) (old : RawTestObjectSpec) : RawTestObjectSpec × Option String :=
  match v with
  | JSON.obj kvs => decodeRawSpecFields kvs old
  | JSON.null => (old, none)
  | _ => (old, some "json: cannot unmarshal into Go value of type TestObjectSpec")

/-- Decode the entries of the top-level object into a `TestObject` whose strings are
bytes, in document order; unknown keys are skipped. -/
def decodeRawObjectFields :
    List (List Char × JSON) → RawTestObject → RawTestObject × Option String
  | [], o => (o, none)
  | (k, v) :: rest, o =>
    let r : RawTestObject × Option String :=
      if keyIs k "kind" then
        ({ o with Content := { o.Content with TypeMeta :=
            { o.Content.TypeMeta with Kind := (decodeByteString v o.Content.TypeMeta.Kind).1 } } },
          (decodeByteString v o.Content.TypeMeta.Kind).2)
      else if keyIs k "apiVersion" then
        ({ o with Content := { o.Content with TypeMeta :=
            { o.Content.TypeMeta with
              APIVersion := (decodeByteString v o.Content.TypeMeta.APIVersion).1 } } },
          (decodeByteString v o.Content.TypeMeta.APIVersion).2)
      else if keyIs k "metadata" then
        ({ o with Meta := (decodeMeta v o.Meta).1 }, (decodeMeta v o.Meta).2)
      else if keyIs k "spec" then
        ({ o with Content := { o.Content with Spec := (decodeRawSpec v o.Content.Spec).1 } },
          (decodeRawSpec v o.Content.Spec).2)
      else if keyIs k "status" then
        ({ o with Content := { o.Content with Status := (decodeStatus v o.Content.Status).1 } },
          (decodeStatus v o.Content.Status).2)
      else (o, none)
    let r2 := decodeRawObjectFields rest r.1
    (r2.1, firstErr r.2 r2.2)

/-- Decode a parsed JSON text into a `*TestObject` whose strings are bytes. -/
def decodeRawTestObject (v : JSON) (old : RawTestObject) : RawTestObject × Option String :=
  match v with
  | JSON.obj kvs => decodeRawObjectFields kvs old
  | JSON.null => (old, none)
  | _ => (old, some "json: cannot unmarshal into Go value of type TestObject")

/-- Call `json.Unmarshal(data, to)` with `to` a `*TestObject` whose strings are bytes. -/
def unmarshalRawTestObject (data : String) (target : RawTestObject) :
    RawTestObject × Option String :=
  match parseJSON data.data with
  | none => (target, some "invalid character looking for beginning of value")
  | some v => decodeRawTestObject v target

/-- The library calls on `*TestObject` with strings as bytes. -/
def rawLib (omitZero : Bool) : JSONLib RawTestObject RawTestObject :=
  { ToUnstructured := fun o => Except.ok (o.toUnstructured omitZero)
    Marshal := fun u => Except.ok (String.mk (encodeValue (JSON.obj u)))
    Unmarshal := unmarshalRawTestObject }

/-- A test object whose `Spec.Field1` is the one byte `0xff`, which is not valid UTF-8: the
Go value `TestObject{Spec: TestObjectSpec{Field1: "\xff"}, Status: TestObjectStatus{Ready:
true}}`. -/
def invalidTextSrc : RawTestObject :=
  { Meta := ObjectMeta.zero
    Content := { TypeMeta := { Kind := [], APIVersion := [] }
                 Spec := { Field1 := [255], Field2 := 0 }
                 Status := { Ready := true } } }

/-- The bytes are valid UTF-8: they are the encoding of a text. -/
def validText (b : List Nat) : Prop := ∃ s : List Char, textBytes s = b

/-- The fields of a test object outside the metadata with each string given by its UTF-8
bytes. -/
def TestContent.toRaw (c : TestContent) : RawTestContent :=
  { TypeMeta := { Kind := textBytes c.TypeMeta.Kind.data,
                  APIVersion := textBytes c.TypeMeta.APIVersion.data }
    Spec := { Field1 := textBytes c.Spec.Field1.data, Field2 := c.Spec.Field2 }
    Status := c.Status }

/-- The unstructured form of the fields outside `metadata` of a test object whose strings
are bytes: what `MarshalData` serializes for it. -/
def RawTestContent.toUnstructured (omitZero : Bool) (c : RawTestContent) :
    List (List Char × JSON) :=
  omitEmptyBytes "apiVersion" c.TypeMeta.APIVersion ++
  omitEmptyBytes "kind" c.TypeMeta.Kind ++
  (if omitZero = true ∧ c.Spec = { Field1 := [], Field2 := 0 } then []
    else [("spec".data, JSON.obj c.Spec.toUnstructured)]) ++
  (if omitZero = true ∧ c.Status = { Ready := false } then []
    else [("status".data, JSON.obj c.Status.toUnstructured)])

/-- Two entries with the same key whose values have the same JSON text. -/
def sameText (a b : List Char × JSON) : Prop := a.1 = b.1 ∧ encodeValue a.2 = encodeValue b.2

/-- A test object whose strings are valid UTF-8, given by their bytes: `Field1` is the
text "é". -/
def validTextSrc : RawTestObject :=
  { Meta := { Name := "test-object", Namespace := "default", Labels := none, Annotations := none }
    Content := { TypeMeta := { Kind := [], APIVersion := [] }
                 Spec := { Field1 := [195, 169], Field2 := 42 }
                 Status := { Ready := true } } }

/-! ## Map lemmas -/

theorem StrMap.get_delete_self (m : StrMap) (k : String) :
    StrMap.get (StrMap.delete m k) k = none := by
  induction m with
  | nil => rfl
  | cons e rest ih =>
    obtain ⟨k', v⟩ := e
    by_cases h : k' = k
    · simp [StrMap.delete, h, ih]
    · simp [StrMap.delete, StrMap.get, h, ih]

theorem StrMap.get_delete_ne (m : StrMap) (k j : String) (hne : j ≠ k) :
    StrMap.get (StrMap.delete m k) j = StrMap.get m j := by
  induction m with
  | nil => rfl
  | cons e rest ih =>
    obtain ⟨k', v⟩ := e
    by_cases h : k' = k
    · subst h
      have hj : ¬ k' = j := fun hk => hne hk.symm
      simp [StrMap.delete, StrMap.get, hj, ih]
    · by_cases hj : k' = j
      · subst hj
        simp [StrMap.delete, StrMap.get, h]
      · simp [StrMap.delete, StrMap.get, h, hj, ih]

theorem StrMap.get_set_self (m : StrMap) (k v : String) :
    StrMap.get (StrMap.set m k v) k = some v := by
  simp [StrMap.set, StrMap.get]

theorem StrMap.get_set_ne (m : StrMap) (k v j : String) (hne : j ≠ k) :
    StrMap.get (StrMap.set m k v) j = StrMap.get m j := by
  have h : ¬ k = j := fun hk => hne hk.symm
  simp [StrMap.set, StrMap.get, h, StrMap.get_delete_ne m k j hne]

/-! ## JSON text round trip: strings -/

theorem hexVal_hexDigit : ∀ n, n < 16 → hexVal (hexDigit n) = some n := by decide

theorem parseHex4_hex4 (n : Nat) (hn : n < 65536) (rest : List Char) :
    parseHex4 (hex4 n ++ rest) = some (n, rest) := by
  have h1 := hexVal_hexDigit (n / 4096 % 16) (Nat.mod_lt _ (by decide))
  have h2 := hexVal_hexDigit (n / 256 % 16) (Nat.mod_lt _ (by decide))
  have h3 := hexVal_hexDigit (n / 16 % 16) (Nat.mod_lt _ (by decide))
  have h4 := hexVal_hexDigit (n % 16) (Nat.mod_lt _ (by decide))
  simp only [hex4, List.cons_append, List.nil_append, parseHex4, h1, h2, h3, h4]
  have : n / 4096 % 16 * 4096 + n / 256 % 16 * 256 + n / 16 % 16 * 16 + n % 16 = n := by omega
  rw [this]

theorem parseStringBody_escapeChar (c : Char) (fuel : Nat) (tail : List Char) :
    parseStringBody (fuel + 1) (escapeChar c ++ tail) =
      match parseStringBody fuel tail with
      | some (s, r) => some (c :: s, r)
      | none => none := by
  unfold escapeChar
  split_ifs with h1 h2 h3 h4 h5 h6 h7 h8
  · subst h1; simp [parseStringBody, simpleEscape]
  · subst h2; simp [parseStringBody, simpleEscape]
  · subst h3; simp [parseStringBody, simpleEscape]
  · subst h4; simp [parseStringBody, simpleEscape]
  · subst h5; simp [parseStringBody, simpleEscape]
  · subst h6; simp [parseStringBody, simpleEscape]
  · subst h7; simp [parseStringBody, simpleEscape]
  · have hn : c.toNat < 65536 ∧ ¬ (0xD800 ≤ c.toNat ∧ c.toNat < 0xE000) := by
      rcases h8 with h | h | h | h | h | h
      · omega
      · subst h; decide
      · subst h; decide
      · subst h; decide
      · omega
      · omega
    have hx := parseHex4_hex4 c.toNat hn.1 tail
    have hdec : ('\\' = '"') = False := by decide
    simp only [List.cons_append, List.nil_append, parseStringBody, List.append_eq, hdec,
      if_false, if_true, hx, hn.2, Char.ofNat_toNat]
  · have hlt : ¬ c.toNat < 32 := fun h => h8 (Or.inl h)
    simp [parseStringBody, h1, h2, hlt]

theorem parseStringBody_escapeString (s : List Char) :
    ∀ (fuel : Nat) (rest : List Char), s.length < fuel →
      parseStringBody fuel (escapeString s ++ '"' :: rest) = some (s, rest) := by
  induction s with
  | nil =>
    intro fuel rest h
    obtain ⟨f, rfl⟩ : ∃ f, fuel = f + 1 := ⟨fuel - 1, by simp at h; omega⟩
    simp [escapeString, parseStringBody]
  | cons c cs ih =>
    intro fuel rest h
    obtain ⟨f, rfl⟩ : ∃ f, fuel = f + 1 := ⟨fuel - 1, by simp at h; omega⟩
    have hf : cs.length < f := by simp at h; omega
    simp only [escapeString, List.append_assoc]
    rw [parseStringBody_escapeChar, ih f rest hf]

theorem length_escapeChar (c : Char) : 1 ≤ (escapeChar c).length := by
  unfold escapeChar
  split_ifs <;> simp [hex4]

theorem length_escapeString (s : List Char) : s.length ≤ (escapeString s).length := by
  induction s with
  | nil => simp [escapeString]
  | cons c cs ih =>
    have := length_escapeChar c
    simp only [escapeString, List.length_cons, List.length_append]
    omega

theorem parseString_encodeString (s rest : List Char) :
    parseString (escapeString s ++ '"' :: rest) = some (s, rest) := by
  unfold parseString
  apply parseStringBody_escapeString
  have := length_escapeString s
  simp only [List.length_append, List.length_cons]
  omega

/-! ## JSON text round trip: numbers -/

theorem digit_facts : ∀ d, d < 10 →
    (Char.ofNat (48 + d)).isDigit = true ∧ (Char.ofNat (48 + d)).toNat - 48 = d ∧
    ((Char.ofNat (48 + d)) = '0' → d = 0) ∧ (Char.ofNat (48 + d)) ≠ '-' := by decide

theorem decimalAux_eq (n : Nat) :
    ∀ (fuel : Nat) (acc : List Char), n < fuel →
      decimalAux fuel n acc = decimalAux (n + 1) n [] ++ acc := by
  induction n using Nat.strong_induction_on with
  | _ n ih =>
    intro fuel acc h
    obtain ⟨f, rfl⟩ : ∃ f, fuel = f + 1 := ⟨fuel - 1, by omega⟩
    by_cases hlt : n < 10
    · simp [decimalAux, hlt]
    · have hdiv : n / 10 < n := by omega
      have hf : n / 10 < f := by omega
      have hn : n / 10 < n := hdiv
      simp only [decimalAux, hlt, if_false]
      rw [ih (n / 10) hdiv f _ hf, ih (n / 10) hdiv n _ hn]
      simp

theorem decimal_lt (n : Nat) (h : n < 10) : decimal n = [Char.ofNat (48 + n)] := by
  simp [decimal, decimalAux, h]

theorem decimal_ge (n : Nat) (h : 10 ≤ n) :
    decimal n = decimal (n / 10) ++ [Char.ofNat (48 + n % 10)] := by
  have hlt : ¬ n < 10 := by omega
  have hdiv : n / 10 < n := by omega
  show decimalAux (n + 1) n [] = decimalAux (n / 10 + 1) (n / 10) [] ++ _
  rw [decimalAux]
  simp only [hlt, if_false]
  rw [decimalAux_eq (n / 10) n _ hdiv]

theorem decimal_ne_nil (n : Nat) : decimal n ≠ [] := by
  by_cases h : n < 10
  · rw [decimal_lt n h]; simp
  · rw [decimal_ge n (by omega)]; simp

theorem decimal_isDigit (n : Nat) : ∀ c ∈ decimal n, c.isDigit = true := by
  induction n using Nat.strong_induction_on with
  | _ n ih =>
    intro c hc
    by_cases h : n < 10
    · rw [decimal_lt n h] at hc
      simp at hc
      subst hc
      exact (digit_facts n h).1
    · rw [decimal_ge n (by omega)] at hc
      simp only [List.mem_append, List.mem_singleton] at hc
      rcases hc with hc | hc
      · exact ih (n / 10) (by omega) c hc
      · subst hc
        exact (digit_facts (n % 10) (Nat.mod_lt _ (by decide))).1

theorem digitsToNat_append (ds : List Char) (c : Char) :
    digitsToNat (ds ++ [c]) = digitsToNat ds * 10 + (c.toNat - 48) := by
  simp [digitsToNat, List.foldl_append]

theorem digitsToNat_decimal (n : Nat) : digitsToNat (decimal n) = n := by
  induction n using Nat.strong_induction_on with
  | _ n ih =>
    by_cases h : n < 10
    · rw [decimal_lt n h]
      simp only [digitsToNat, List.foldl]
      have := (digit_facts n h).2.1
      omega
    · rw [decimal_ge n (by omega), digitsToNat_append, ih (n / 10) (by omega),
        (digit_facts (n % 10) (Nat.mod_lt _ (by decide))).2.1]
      omega

theorem decimal_head (n : Nat) (hn : 0 < n) : (decimal n).head? ≠ some '0' := by
  induction n using Nat.strong_induction_on with
  | _ n ih =>
    by_cases h : n < 10
    · rw [decimal_lt n h]
      simp only [List.head?_cons, ne_eq, Option.some.injEq]
      intro h0
      have := (digit_facts n h).2.2.1 h0
      omega
    · rw [decimal_ge n (by omega)]
      have hne := decimal_ne_nil (n / 10)
      cases hd : decimal (n / 10) with
      | nil => exact absurd hd hne
      | cons a t =>
        have := ih (n / 10) (by omega) (by omega)
        rw [hd] at this
        simpa using this

theorem decimal_zero : decimal 0 = ['0'] := by decide

theorem decimal_no_leading_zero (n : Nat) :
    ¬ ((decimal n).head? = some '0' ∧ 1 < (decimal n).length) := by
  rcases Nat.eq_zero_or_pos n with h | h
  · subst h
    rw [decimal_zero]
    simp
  · intro hc
    exact decimal_head n h hc.1

theorem decimal_head_ne_minus (n : Nat) : (decimal n).head? ≠ some '-' := by
  cases hd : decimal n with
  | nil => simp
  | cons a t =>
    have ha : a.isDigit = true := decimal_isDigit n a (by rw [hd]; simp)
    simp only [List.head?_cons, ne_eq, Option.some.injEq]
    intro h
    subst h
    exact absurd ha (by decide)

theorem spanDigits_append (ds rest : List Char) (hds : ∀ c ∈ ds, c.isDigit = true)
    (hrest : ∀ c r, rest = c :: r → c.isDigit = false) :
    spanDigits (ds ++ rest) = (ds, rest) := by
  induction ds with
  | nil =>
    cases rest with
    | nil => rfl
    | cons c r => simp [spanDigits, hrest c r rfl]
  | cons d ds ih =>
    have hd : d.isDigit = true := hds d (by simp)
    have ih' := ih (fun c hc => hds c (by simp [hc]))
    simp [spanDigits, hd, ih']

theorem delimited_cases (rest : List Char) (h : delimited rest = true) :
    rest = [] ∨ ∃ c r, rest = c :: r ∧ (c = ',' ∨ c = '\x7d' ∨ c = ']') := by
  cases rest with
  | nil => exact Or.inl rfl
  | cons c r =>
    right
    refine ⟨c, r, rfl, ?_⟩
    simp only [delimited, Bool.or_eq_true, decide_eq_true_eq] at h
    rcases h with (h | h) | h
    · exact Or.inl h
    · exact Or.inr (Or.inl h)
    · exact Or.inr (Or.inr h)

theorem parseNumber_decimal (neg : Bool) (n : Nat) (rest : List Char)
    (h : delimited rest = true) :
    parseNumber ((if neg then ['-'] else []) ++ decimal n ++ rest) =
      some (JSON.num (if neg then - (n : Int) else (n : Int)), rest) := by
  have hspan : spanDigits (decimal n ++ rest) = (decimal n, rest) := by
    apply spanDigits_append _ _ (decimal_isDigit n)
    intro c r hr
    rcases delimited_cases rest h with h0 | ⟨c', r', hcr, hc⟩
    · rw [h0] at hr; cases hr
    · rw [hcr] at hr
      cases hr
      rcases hc with hc | hc | hc <;> subst hc <;> decide
  have hfrac : parseFrac rest = some ([], rest) := by
    rcases delimited_cases rest h with h0 | ⟨c', r', hcr, hc⟩
    · subst h0; rfl
    · subst hcr
      rcases hc with hc | hc | hc <;> subst hc <;> simp [parseFrac]
  have hexp : parseExp rest = some ([], rest) := by
    rcases delimited_cases rest h with h0 | ⟨c', r', hcr, hc⟩
    · subst h0; rfl
    · subst hcr
      rcases hc with hc | hc | hc <;> subst hc <;> simp [parseExp]
  have hnz := decimal_no_leading_zero n
  have hne := decimal_ne_nil n
  cases neg with
  | true =>
    simp only [if_true, List.cons_append, List.nil_append, parseNumber, List.head?_cons,
      List.tail_cons, hspan, hne, hnz, if_false, hfrac, hexp, digitsToNat_decimal]
    simp
  | false =>
    have hm := decimal_head_ne_minus n
    have hh : (decimal n ++ rest).head? = (decimal n).head? := by
      cases hd : decimal n with
      | nil => exact absurd hd hne
      | cons a t => simp
    simp only [Bool.false_eq_true, if_false, List.nil_append, parseNumber, hh, hm, hspan, hne,
      hnz, hfrac, hexp, digitsToNat_decimal]
    simp

theorem encodeInt_eq (n : Int) :
    encodeInt n = (if n < 0 then ['-'] else []) ++ decimal n.natAbs := by
  cases n with
  | ofNat m => simp [encodeInt]
  | negSucc m => simp [encodeInt, Int.negSucc_lt_zero]

theorem parseNumber_encodeInt (n : Int) (rest : List Char) (h : delimited rest = true) :
    parseNumber (encodeInt n ++ rest) = some (JSON.num n, rest) := by
  rw [encodeInt_eq]
  by_cases hn : n < 0
  · have := parseNumber_decimal true n.natAbs rest h
    simp only [if_true] at this
    have he : -(n.natAbs : Int) = n := by omega
    rw [he] at this
    simp only [hn, if_true]
    exact this
  · have := parseNumber_decimal false n.natAbs rest h
    simp only [Bool.false_eq_true, if_false] at this
    have he : (n.natAbs : Int) = n := by omega
    rw [he] at this
    simp only [hn, if_false]
    exact this

/-! ## JSON text round trip: values -/

theorem numStart_facts (c : Char) (h : c.isDigit = true ∨ c = '-') :
    isWs c = false ∧ c ≠ '\x7b' ∧ c ≠ '[' ∧ c ≠ '"' ∧ c ≠ 't' ∧ c ≠ 'f' ∧ c ≠ 'n' ∧
    c ≠ ']' ∧ c ≠ '\x7d' := by
  rcases h with h | h
  · refine ⟨?_, ?_, ?_, ?_, ?_, ?_, ?_, ?_, ?_⟩
    · cases hw : isWs c with
      | false => rfl
      | true =>
        simp only [isWs, Bool.or_eq_true, decide_eq_true_eq] at hw
        rcases hw with ((hw | hw) | hw) | hw <;> subst hw <;> exact absurd h (by decide)
    all_goals (intro hc; subst hc; exact absurd h (by decide))
  · subst h
    decide

theorem encodeInt_head (n : Int) :
    ∃ c t, encodeInt n = c :: t ∧ (c.isDigit = true ∨ c = '-') := by
  cases n with
  | ofNat m =>
    cases hd : decimal m with
    | nil => exact absurd hd (decimal_ne_nil m)
    | cons a t =>
      refine ⟨a, t, ?_, Or.inl (decimal_isDigit m a (by rw [hd]; simp))⟩
      simp [encodeInt, hd]
  | negSucc m => exact ⟨'-', decimal (m + 1), rfl, Or.inr rfl⟩

theorem encodeValue_head (j : JSON) (hj : j.noFloat = true) :
    ∃ c t, encodeValue j = c :: t ∧ isWs c = false ∧ c ≠ ']' ∧ c ≠ '\x7d' := by
  cases j with
  | null => exact ⟨'n', _, rfl, by decide, by decide, by decide⟩
  | bool b =>
    cases b
    · exact ⟨'f', _, rfl, by decide, by decide, by decide⟩
    · exact ⟨'t', _, rfl, by decide, by decide, by decide⟩
  | num n =>
    obtain ⟨c, t, hc, hd⟩ := encodeInt_head n
    have hf := numStart_facts c hd
    exact ⟨c, t, by simp [encodeValue, hc], hf.1, hf.2.2.2.2.2.2.2.1, hf.2.2.2.2.2.2.2.2⟩
  | float lit => simp [JSON.noFloat] at hj
  | bytes b => simp [JSON.noFloat] at hj
  | str s => exact ⟨'"', _, rfl, by decide, by decide, by decide⟩
  | arr xs =>
    cases xs with
    | nil => exact ⟨'[', _, rfl, by decide, by decide, by decide⟩
    | cons x xs =>
      exact ⟨'[', encodeValue x ++ encodeElems xs, by simp [encodeValue], by decide, by decide,
        by decide⟩
  | obj kvs =>
    cases kvs with
    | nil => exact ⟨'\x7b', _, rfl, by decide, by decide, by decide⟩
    | cons e kvs =>
      obtain ⟨k, v⟩ := e
      exact ⟨'\x7b', encodeString k ++ ':' :: (encodeValue v ++ encodeFields kvs),
        by simp [encodeValue], by decide, by decide, by decide⟩

theorem delimited_encodeElems (xs : List JSON) (rest : List Char) :
    delimited (encodeElems xs ++ rest) = true := by
  cases xs with
  | nil => simp [encodeElems, delimited]
  | cons x xs => simp [encodeElems, delimited]

theorem delimited_encodeFields (kvs : List (List Char × JSON)) (rest : List Char) :
    delimited (encodeFields kvs ++ rest) = true := by
  cases kvs with
  | nil => simp [encodeFields, delimited]
  | cons e kvs =>
    obtain ⟨k, v⟩ := e
    simp [encodeFields, delimited]

theorem skipWs_cons (c : Char) (t : List Char) (h : isWs c = false) :
    skipWs (c :: t) = c :: t := by
  simp [skipWs, h]

mutual
theorem parseValue_encodeValue (j : JSON) (hj : j.noFloat = true) (fuel : Nat)
    (rest : List Char) (hf : j.fuel ≤ fuel) (hr : delimited rest = true) :
    parseValue fuel (encodeValue j ++ rest) = some (j, rest) := by
  obtain ⟨f, rfl⟩ : ∃ f, fuel = f + 1 := ⟨fuel - 1, by cases j <;> simp [JSON.fuel] at hf <;> omega⟩
  match j, hj, hf with
  | .null, _, _ => simp [encodeValue, parseValue, skipWs, isWs, dropLit]
  | .bool true, _, _ => simp [encodeValue, parseValue, skipWs, isWs, dropLit]
  | .bool false, _, _ => simp [encodeValue, parseValue, skipWs, isWs, dropLit]
  | .num n, _, _ =>
    obtain ⟨c, t, hc, hd⟩ := encodeInt_head n
    have hfacts := numStart_facts c hd
    have hp := parseNumber_encodeInt n rest hr
    simp only [encodeValue]
    rw [hc] at hp ⊢
    simp only [List.cons_append] at hp ⊢
    simp only [parseValue, skipWs_cons c _ hfacts.1, hfacts.2.1, hfacts.2.2.1, hfacts.2.2.2.1,
      hfacts.2.2.2.2.1, hfacts.2.2.2.2.2.1, hfacts.2.2.2.2.2.2.1, if_false, hp]
  | .float _, hj, _ => simp [JSON.noFloat] at hj
  | .bytes _, hj, _ => simp [JSON.noFloat] at hj
  | .str s, _, _ =>
    have hp := parseString_encodeString s rest
    simp only [encodeValue, encodeString, List.cons_append, List.append_assoc,
      List.singleton_append]
    simp [parseValue, skipWs, isWs, hp]
  | .arr [], _, _ => simp [encodeValue, parseValue, skipWs, isWs]
  | .arr (x :: xs), hj, hf =>
    have hx : x.noFloat = true ∧ noFloatList xs = true := by
      simpa [JSON.noFloat, noFloatList] using hj
    obtain ⟨c, t, hc, hw, hb, _⟩ := encodeValue_head x hx.1
    have hl : noFloatList (x :: xs) = true := by simpa [noFloatList] using hx
    have hfl : fuelList (x :: xs) ≤ f := by simp [JSON.fuel] at hf; omega
    have hp := parseElems_encodeElems (x :: xs) hl f rest hfl hr (by simp)
    simp only [encodeElems, List.tail_cons, List.append_assoc] at hp
    simp only [encodeValue, List.cons_append, List.append_assoc]
    rw [hc] at hp ⊢
    simp only [List.cons_append] at hp ⊢
    have h1 : isWs '[' = false := by decide
    simp only [parseValue, skipWs_cons _ _ h1, skipWs_cons c _ hw, hb, if_false, hp]
    simp
  | .obj [], _, _ => simp [encodeValue, parseValue, skipWs, isWs]
  | .obj ((k, v) :: kvs), hj, hf =>
    have hl : noFloatFields ((k, v) :: kvs) = true := by simpa [JSON.noFloat] using hj
    have hfl : fuelFields ((k, v) :: kvs) ≤ f := by simp [JSON.fuel] at hf; omega
    have hp := parseFields_encodeFields ((k, v) :: kvs) hl f rest hfl hr (by simp)
    simp only [encodeFields, List.tail_cons, encodeString, List.cons_append, List.append_assoc,
      List.singleton_append] at hp
    simp only [encodeValue, encodeString, List.cons_append, List.append_assoc,
      List.singleton_append]
    have h1 : isWs '\x7b' = false := by decide
    have h2 : isWs '"' = false := by decide
    simp only [parseValue, skipWs_cons _ _ h1, skipWs_cons _ _ h2, hp]
    simp
theorem parseElems_encodeElems (l : List JSON) (hl : noFloatList l = true) (fuel : Nat)
    (rest : List Char) (hf : fuelList l ≤ fuel) (hr : delimited rest = true) (hne : l ≠ []) :
    parseElems fuel ((encodeElems l).tail ++ rest) = some (l, rest) := by
  match l, hl, hf, hne with
  | [], _, _, hne => exact absurd rfl hne
  | y :: ys, hl, hf, _ =>
    obtain ⟨f, rfl⟩ : ∃ f, fuel = f + 1 := ⟨fuel - 1, by simp [fuelList] at hf; omega⟩
    have hy : y.noFloat = true ∧ noFloatList ys = true := by simpa [noFloatList] using hl
    have hfy : y.fuel ≤ f := by simp [fuelList] at hf; omega
    have hfys : fuelList ys ≤ f := by simp [fuelList] at hf; omega
    have hv := parseValue_encodeValue y hy.1 f (encodeElems ys ++ rest) hfy
      (delimited_encodeElems ys rest)
    simp only [encodeElems, List.tail_cons, List.append_assoc]
    match ys, hy, hfys, hv with
    | [], _, _, hv =>
      simp only [encodeElems, List.cons_append, List.nil_append] at hv ⊢
      simp [parseElems, hv, skipWs, isWs]
    | z :: zs, hy, hfys, hv =>
      have hp := parseElems_encodeElems (z :: zs) hy.2 f rest hfys hr (by simp)
      simp only [encodeElems, List.tail_cons, List.cons_append, List.append_assoc] at hp hv ⊢
      simp [parseElems, hv, skipWs, isWs, hp]
theorem parseFields_encodeFields (l : List (List Char × JSON)) (hl : noFloatFields l = true)
    (fuel : Nat) (rest : List Char) (hf : fuelFields l ≤ fuel) (hr : delimited rest = true)
    (hne : l ≠ []) :
    parseFields fuel ((encodeFields l).tail ++ rest) = some (l, rest) := by
  match l, hl, hf, hne with
  | [], _, _, hne => exact absurd rfl hne
  | (k', y) :: ys, hl, hf, _ =>
    obtain ⟨f, rfl⟩ : ∃ f, fuel = f + 1 := ⟨fuel - 1, by simp [fuelFields] at hf; omega⟩
    have hy : y.noFloat = true ∧ noFloatFields ys = true := by simpa [noFloatFields] using hl
    have hfy : y.fuel ≤ f := by simp [fuelFields] at hf; omega
    have hfys : fuelFields ys ≤ f := by simp [fuelFields] at hf; omega
    have hv := parseValue_encodeValue y hy.1 f (encodeFields ys ++ rest) hfy
      (delimited_encodeFields ys rest)
    have hs := parseString_encodeString k' (':' :: (encodeValue y ++ (encodeFields ys ++ rest)))
    have h2 : isWs '"' = false := by decide
    have h3 : isWs ':' = false := by decide
    simp only [encodeFields, List.tail_cons, encodeString, List.cons_append, List.append_assoc,
      List.singleton_append]
    match ys, hy, hfys, hv, hs with
    | [], _, _, hv, hs =>
      simp only [encodeFields, List.cons_append, List.nil_append] at hv hs ⊢
      simp [parseFields, skipWs_cons _ _ h2, hs, skipWs_cons _ _ h3, hv, skipWs, isWs]
    | (k2, z) :: zs, hy, hfys, hv, hs =>
      have hp := parseFields_encodeFields ((k2, z) :: zs) hy.2 f rest hfys hr (by simp)
      simp only [encodeFields, List.tail_cons, encodeString, List.cons_append,
        List.append_assoc, List.singleton_append, List.nil_append] at hp hv hs ⊢
      simp [parseFields, skipWs_cons _ _ h2, hs, skipWs_cons _ _ h3, hv, skipWs, isWs, hp]
end

mutual
theorem fuel_le_length (j : JSON) (hj : j.noFloat = true) :
    j.fuel ≤ (encodeValue j).length := by
  match j, hj with
  | .null, _ => simp [JSON.fuel, encodeValue]
  | .bool true, _ => simp [JSON.fuel, encodeValue]
  | .bool false, _ => simp [JSON.fuel, encodeValue]
  | .num n, _ =>
    obtain ⟨c, t, hc, _⟩ := encodeInt_head n
    simp [JSON.fuel, encodeValue, hc]
  | .float _, hj => simp [JSON.noFloat] at hj
  | .bytes _, hj => simp [JSON.noFloat] at hj
  | .str s, _ => simp [JSON.fuel, encodeValue, encodeString]
  | .arr [], _ => simp [JSON.fuel, encodeValue, fuelList]
  | .arr (x :: xs), hj =>
    have hx : x.noFloat = true ∧ noFloatList xs = true := by
      simpa [JSON.noFloat, noFloatList] using hj
    have h1 := fuel_le_length x hx.1
    have h2 := fuelList_lt_length xs hx.2
    simp only [JSON.fuel, fuelList, encodeValue, List.length_cons, List.length_append]
    omega
  | .obj [], _ => simp [JSON.fuel, encodeValue, fuelFields]
  | .obj ((k, v) :: kvs), hj =>
    have hx : v.noFloat = true ∧ noFloatFields kvs = true := by
      simpa [JSON.noFloat, noFloatFields] using hj
    have h1 := fuel_le_length v hx.1
    have h2 := fuelFields_lt_length kvs hx.2
    simp only [JSON.fuel, fuelFields, encodeValue, List.length_cons, List.length_append]
    omega
theorem fuelList_lt_length (l : List JSON) (hl : noFloatList l = true) :
    fuelList l < (encodeElems l).length := by
  match l, hl with
  | [], _ => simp [fuelList, encodeElems]
  | x :: xs, hl =>
    have hx : x.noFloat = true ∧ noFloatList xs = true := by simpa [noFloatList] using hl
    have h1 := fuel_le_length x hx.1
    have h2 := fuelList_lt_length xs hx.2
    simp only [fuelList, encodeElems, List.length_cons, List.length_append]
    omega
theorem fuelFields_lt_length (l : List (List Char × JSON)) (hl : noFloatFields l = true) :
    fuelFields l < (encodeFields l).length := by
  match l, hl with
  | [], _ => simp [fuelFields, encodeFields]
  | (k, v) :: kvs, hl =>
    have hx : v.noFloat = true ∧ noFloatFields kvs = true := by simpa [noFloatFields] using hl
    have h1 := fuel_le_length v hx.1
    have h2 := fuelFields_lt_length kvs hx.2
    simp only [fuelFields, encodeFields, List.length_cons, List.length_append]
    omega
end

/-- Parsing the encoding of a tree without fractional numbers gives the tree back. -/
theorem parseJSON_encodeValue (j : JSON) (hj : j.noFloat = true) :
    parseJSON (encodeValue j) = some j := by
  have h := parseValue_encodeValue j hj ((encodeValue j).length + 1) [] (by
    have := fuel_le_length j hj
    omega) rfl
  rw [List.append_nil] at h
  simp [parseJSON, h, skipWs]

/-! ## The test object through the stash -/

theorem keyIs_facts :
    keyIs "apiVersion".data "kind" = false ∧ keyIs "apiVersion".data "apiVersion" = true ∧
    keyIs "kind".data "kind" = true ∧
    keyIs "spec".data "kind" = false ∧ keyIs "spec".data "apiVersion" = false ∧
    keyIs "spec".data "metadata" = false ∧ keyIs "spec".data "spec" = true ∧
    keyIs "status".data "kind" = false ∧ keyIs "status".data "apiVersion" = false ∧
    keyIs "status".data "metadata" = false ∧ keyIs "status".data "spec" = false ∧
    keyIs "status".data "status" = true ∧
    keyIs "field1".data "field1" = true ∧ keyIs "field2".data "field1" = false ∧
    keyIs "field2".data "field2" = true ∧ keyIs "ready".data "ready" = true := by decide

theorem deleteKey_append (a b : List (List Char × JSON)) (k : List Char) :
    deleteKey (a ++ b) k = deleteKey a k ++ deleteKey b k := by
  induction a with
  | nil => rfl
  | cons e a ih =>
    obtain ⟨k', v⟩ := e
    by_cases h : k' = k <;> simp [deleteKey, h, ih]

theorem deleteKey_metadata (z : Bool) (o : TestObject) :
    deleteKey (o.toUnstructured z) "metadata".data = o.Content.toUnstructured z := by
  have h1 : ("apiVersion".data = "metadata".data) = False := by decide
  have h2 : ("kind".data = "metadata".data) = False := by decide
  have h3 : ("spec".data = "metadata".data) = False := by decide
  have h4 : ("status".data = "metadata".data) = False := by decide
  unfold TestObject.toUnstructured TestContent.toUnstructured omitEmptyStr
  simp only [deleteKey_append]
  split_ifs <;> simp [deleteKey, h1, h2, h3, h4]

theorem noFloat_content (z : Bool) (c : TestContent) :
    (JSON.obj (c.toUnstructured z)).noFloat = true := by
  unfold TestContent.toUnstructured TestObjectSpec.toUnstructured
    TestObjectStatus.toUnstructured omitEmptyStr
  split_ifs <;> simp [JSON.noFloat, noFloatFields]

theorem decodeSpec_toUnstructured (s : TestObjectSpec) (h : inInt64 s.Field2 = true) :
    decodeSpecFields s.toUnstructured { Field1 := "", Field2 := 0 } = (s, none) := by
  obtain ⟨f1, f2⟩ := s
  simp only at h
  unfold TestObjectSpec.toUnstructured omitEmptyStr
  obtain ⟨_, _, _, _, _, _, _, _, _, _, _, _, k1, k2, k3, _⟩ := keyIs_facts
  by_cases h1 : f1 = "" <;> by_cases h2 : f2 = 0 <;>
    simp [h1, h2, decodeSpecFields, decodeString, decodeInt, firstErr, k1, k2, k3, h]

theorem decodeStatus_toUnstructured (s : TestObjectStatus) :
    decodeStatusFields s.toUnstructured { Ready := false } = (s, none) := by
  obtain ⟨r⟩ := s
  unfold TestObjectStatus.toUnstructured
  have k := keyIs_facts.2.2.2.2.2.2.2.2.2.2.2.2.2.2.2
  cases r <;> simp [decodeStatusFields, decodeBool, firstErr, k]

theorem decodeObject_toUnstructured (z : Bool) (c : TestContent)
    (h : inInt64 c.Spec.Field2 = true) :
    decodeObjectFields (c.toUnstructured z) TestObject.zero =
      ({ Meta := ObjectMeta.zero, Content := c }, none) := by
  obtain ⟨⟨kind, apiVersion⟩, spec, status⟩ := c
  simp only at h
  have hs := decodeSpec_toUnstructured spec h
  have ht := decodeStatus_toUnstructured status
  obtain ⟨a1, a2, a3, a4, a5, a6, a7, a8, a9, a10, a11, a12, _, _, _, _⟩ := keyIs_facts
  have hs0 : decodeSpecFields ({ Field1 := "", Field2 := 0 } : TestObjectSpec).toUnstructured
      { Field1 := "", Field2 := 0 } = ({ Field1 := "", Field2 := 0 }, none) := rfl
  have ht0 : decodeStatusFields ({ Ready := false } : TestObjectStatus).toUnstructured
      { Ready := false } = ({ Ready := false }, none) := rfl
  unfold TestContent.toUnstructured omitEmptyStr
  cases z <;> by_cases h1 : apiVersion = "" <;> by_cases h2 : kind = "" <;>
    by_cases h3 : spec = { Field1 := "", Field2 := 0 } <;>
    by_cases h4 : status = { Ready := false } <;>
    simp [h1, h2, h3, h4, decodeObjectFields, decodeString, decodeSpec, decodeStatus, firstErr,
      a1, a2, a3, a4, a5, a6, a7, a8, a9, a10, a11, a12, hs, ht, hs0, ht0, TestObject.zero,
      TestContent.zero]

/-! ## Unfolding the stash functions -/

theorem marshalData_ok {S T D : Type} (lib : JSONLib S T) (src : S) (dst : Object D)
    (data : String) (h : marshalPayload lib src = Except.ok data) :
    MarshalData lib src dst =
      (none, dst.SetAnnotations
        (some (StrMap.set (dst.GetAnnotations.getD []) DataAnnotation data))) := by
  unfold MarshalData
  rw [h]
  cases hd : dst.GetAnnotations <;> simp

theorem marshalData_error {S T D : Type} (lib : JSONLib S T) (src : S) (dst : Object D)
    (e : String) (h : marshalPayload lib src = Except.error e) :
    MarshalData lib src dst = (some e, dst) := by
  unfold MarshalData
  rw [h]

theorem marshalData_success {S T D : Type} (lib : JSONLib S T) (src : S) (dst : Object D)
    (h : (MarshalData lib src dst).1 = none) :
    ∃ data, marshalPayload lib src = Except.ok data := by
  cases hp : marshalPayload lib src with
  | error e => rw [marshalData_error lib src dst e hp] at h; simp at h
  | ok data => exact ⟨data, rfl⟩

theorem unmarshalData_absent {S P T : Type} (lib : JSONLib S T) (frm : Object P) (target : T)
    (h : GoMap.get frm.GetAnnotations DataAnnotation = none) :
    UnmarshalData lib frm target =
      { found := false, err := none, frm := frm, target := target } := by
  unfold UnmarshalData
  simp only [h]

theorem unmarshalData_error {S P T : Type} (lib : JSONLib S T) (frm : Object P) (target : T)
    (data e : String) (h : GoMap.get frm.GetAnnotations DataAnnotation = some data)
    (hu : (lib.Unmarshal data target).2 = some e) :
    UnmarshalData lib frm target =
      { found := false, err := some ("failed to unmarshal data annotation: " ++ e),
        frm := frm, target := (lib.Unmarshal data target).1 } := by
  unfold UnmarshalData
  simp only [h]
  rcases hr : lib.Unmarshal data target with ⟨t', e'⟩
  rw [hr] at hu
  simp only at hu
  subst hu
  rfl

theorem unmarshalData_ok {S P T : Type} (lib : JSONLib S T) (frm : Object P) (target : T)
    (data : String) (h : GoMap.get frm.GetAnnotations DataAnnotation = some data)
    (hu : (lib.Unmarshal data target).2 = none) :
    UnmarshalData lib frm target =
      { found := true, err := none,
        frm := frm.SetAnnotations
          (frm.GetAnnotations.map (fun m => StrMap.delete m DataAnnotation)),
        target := (lib.Unmarshal data target).1 } := by
  unfold UnmarshalData
  simp only [h]
  rcases hr : lib.Unmarshal data target with ⟨t', e'⟩
  rw [hr] at hu
  simp only at hu
  subst hu
  rfl

theorem GoMap.get_map_delete_self (a : Option StrMap) (k : String) :
    GoMap.get (a.map (fun m => StrMap.delete m k)) k = none := by
  cases a with
  | none => rfl
  | some m => exact StrMap.get_delete_self m k

theorem GoMap.get_map_delete_other (a : Option StrMap) (k j : String) (hne : j ≠ k) :
    GoMap.get (a.map (fun m => StrMap.delete m k)) j = GoMap.get a j := by
  cases a with
  | none => rfl
  | some m => exact StrMap.get_delete_ne m k j hne

theorem GoMap.get_getD (a : Option StrMap) (j : String) :
    StrMap.get (a.getD []) j = GoMap.get a j := by
  cases a <;> rfl

/-! ## The stash contract -/

/-- C2 (store postcondition): when `MarshalData(src, dst)` succeeds, `dst`'s annotation map
afterwards is its previous map (empty when it was nil) with ` DataAnnotation` set to the
serialized payload of `src`: the key reads the payload, whatever it held before, and every
other key reads as before. -/
theorem marshalData_store_postcondition {S T D : Type} (lib : JSONLib S T) (src : S)
    (dst : Object D) (h : (MarshalData lib src dst).1 = none) :
    ∃ data, marshalPayload lib src = Except.ok data ∧
      (MarshalData lib src dst).2.GetAnnotations =
        some (StrMap.set (dst.GetAnnotations.getD []) DataAnnotation data) ∧
      GoMap.get (MarshalData lib src dst).2.GetAnnotations DataAnnotation = some data ∧
      (∀ k, k ≠ DataAnnotation →
        GoMap.get (MarshalData lib src dst).2.GetAnnotations k = GoMap.get dst.GetAnnotations k) ∧
      (MarshalData lib src dst).2.Content = dst.Content := by
  obtain ⟨data, hp⟩ := marshalData_success lib src dst h
  refine ⟨data, hp, ?_, ?_, ?_, ?_⟩
  · rw [marshalData_ok lib src dst data hp]; rfl
  · rw [marshalData_ok lib src dst data hp]
    exact StrMap.get_set_self _ _ _
  · intro k hk
    rw [marshalData_ok lib src dst data hp]
    exact (StrMap.get_set_ne _ _ _ k hk).trans (GoMap.get_getD _ k)
  · rw [marshalData_ok lib src dst data hp]; rfl

set_option maxRecDepth 100000 in
/-- C2 at the source of the first test and a destination that holds an older stash. -/
theorem marshalData_store_postcondition_witness :
    (MarshalData (testLib true) testSrc annotatedDst).1 = none ∧
    ∃ data, marshalPayload (testLib true) testSrc = Except.ok data ∧
      (MarshalData (testLib true) testSrc annotatedDst).2.GetAnnotations =
        some (StrMap.set (annotatedDst.GetAnnotations.getD []) DataAnnotation data) ∧
      GoMap.get (MarshalData (testLib true) testSrc annotatedDst).2.GetAnnotations DataAnnotation
        = some data ∧
      (∀ k, k ≠ DataAnnotation →
        GoMap.get (MarshalData (testLib true) testSrc annotatedDst).2.GetAnnotations k
          = GoMap.get annotatedDst.GetAnnotations k) ∧
      (MarshalData (testLib true) testSrc annotatedDst).2.Content = annotatedDst.Content :=
  ⟨rfl, marshalData_store_postcondition (testLib true) testSrc annotatedDst rfl⟩

/-- C3 (destructive read): when the source's annotation map holds a ` DataAnnotation` value
that deserializes into the target, `UnmarshalData` returns `(true, nil)`, the key is gone
from the source's map, every other key reads as before, and a second `UnmarshalData` on the
same source returns `found = false` without error. -/
theorem unmarshalData_destructive_read {S P T : Type} (lib : JSONLib S T) (frm : Object P)
    (target : T) (data : String)
    (h : GoMap.get frm.GetAnnotations DataAnnotation = some data)
    (hu : (lib.Unmarshal data target).2 = none) :
    (UnmarshalData lib frm target).found = true ∧
    (UnmarshalData lib frm target).err = none ∧
    (UnmarshalData lib frm target).target = (lib.Unmarshal data target).1 ∧
    GoMap.get (UnmarshalData lib frm target).frm.GetAnnotations DataAnnotation = none ∧
    (∀ k, k ≠ DataAnnotation →
      GoMap.get (UnmarshalData lib frm target).frm.GetAnnotations k
        = GoMap.get frm.GetAnnotations k) ∧
    (∀ target2 : T,
      (UnmarshalData lib (UnmarshalData lib frm target).frm target2).found = false ∧
      (UnmarshalData lib (UnmarshalData lib frm target).frm target2).err = none) := by
  rw [unmarshalData_ok lib frm target data h hu]
  have hgone : GoMap.get (frm.SetAnnotations
      (frm.GetAnnotations.map (fun m => StrMap.delete m DataAnnotation))).GetAnnotations
      DataAnnotation = none := GoMap.get_map_delete_self _ _
  refine ⟨rfl, rfl, rfl, hgone, ?_, ?_⟩
  · intro k hk
    exact GoMap.get_map_delete_other _ _ k hk
  · intro target2
    rw [unmarshalData_absent lib _ target2 hgone]
    exact ⟨rfl, rfl⟩

set_option maxRecDepth 100000 in
/-- C3 at an object that holds a stash next to another annotation. -/
theorem unmarshalData_destructive_read_witness :
    (UnmarshalData (testLib true) stashedObject TestObject.zero).found = true ∧
    (UnmarshalData (testLib true) stashedObject TestObject.zero).err = none ∧
    (UnmarshalData (testLib true) stashedObject TestObject.zero).target =
      ((testLib true).Unmarshal "\x7b\"spec\":\x7b\"field1\":\"test\"\x7d\x7d" TestObject.zero).1 ∧
    GoMap.get (UnmarshalData (testLib true) stashedObject TestObject.zero).frm.GetAnnotations
      DataAnnotation = none ∧
    (∀ k, k ≠ DataAnnotation →
      GoMap.get (UnmarshalData (testLib true) stashedObject TestObject.zero).frm.GetAnnotations k
        = GoMap.get stashedObject.GetAnnotations k) ∧
    (∀ target2 : TestObject,
      (UnmarshalData (testLib true) (UnmarshalData (testLib true) stashedObject TestObject.zero).frm
        target2).found = false ∧
      (UnmarshalData (testLib true) (UnmarshalData (testLib true) stashedObject TestObject.zero).frm
        target2).err = none) :=
  unmarshalData_destructive_read (testLib true) stashedObject TestObject.zero
    "\x7b\"spec\":\x7b\"field1\":\"test\"\x7d\x7d" rfl rfl

/-- C4 (malformed-data safety): when the ` DataAnnotation` value does not deserialize into
the target, `UnmarshalData` returns `found = false` with a non-nil error and the source,
its annotation map included, is left as it was. -/
theorem unmarshalData_malformed {S P T : Type} (lib : JSONLib S T) (frm : Object P)
    (target : T) (data e : String)
    (h : GoMap.get frm.GetAnnotations DataAnnotation = some data)
    (hu : (lib.Unmarshal data target).2 = some e) :
    (UnmarshalData lib frm target).found = false ∧
    (UnmarshalData lib frm target).err ≠ none ∧
    (UnmarshalData lib frm target).frm = frm ∧
    GoMap.get (UnmarshalData lib frm target).frm.GetAnnotations DataAnnotation = some data := by
  rw [unmarshalData_error lib frm target data e h hu]
  exact ⟨rfl, by simp, rfl, h⟩

set_option maxRecDepth 100000 in
/-- C4 at the object of test "should return error for invalid JSON". -/
theorem unmarshalData_malformed_witness :
    (UnmarshalData (testLib true) invalidObject TestObject.zero).found = false ∧
    (UnmarshalData (testLib true) invalidObject TestObject.zero).err ≠ none ∧
    (UnmarshalData (testLib true) invalidObject TestObject.zero).frm = invalidObject ∧
    GoMap.get (UnmarshalData (testLib true) invalidObject TestObject.zero).frm.GetAnnotations
      DataAnnotation = some "invalid-json" :=
  unmarshalData_malformed (testLib true) invalidObject TestObject.zero "invalid-json"
    "invalid character looking for beginning of value" rfl rfl

/-- C5 (not found): when the source's annotation map has no ` DataAnnotation` key,
`UnmarshalData` returns `(false, nil)` and leaves the source and the target as they were;
a nil map and an empty map both give this result. -/
theorem unmarshalData_not_found {S P T : Type} (lib : JSONLib S T) (frm : Object P)
    (target : T) (h : GoMap.get frm.GetAnnotations DataAnnotation = none) :
    ((UnmarshalData lib frm target).found = false ∧
     (UnmarshalData lib frm target).err = none ∧
     (UnmarshalData lib frm target).frm = frm ∧
     (UnmarshalData lib frm target).target = target) ∧
    (UnmarshalData lib (frm.SetAnnotations none) target).found = false ∧
    (UnmarshalData lib (frm.SetAnnotations none) target).err = none ∧
    (UnmarshalData lib (frm.SetAnnotations (some [])) target).found = false ∧
    (UnmarshalData lib (frm.SetAnnotations (some [])) target).err = none := by
  rw [unmarshalData_absent lib frm target h,
    unmarshalData_absent lib (frm.SetAnnotations none) target rfl,
    unmarshalData_absent lib (frm.SetAnnotations (some [])) target rfl]
  exact ⟨⟨rfl, rfl, rfl, rfl⟩, rfl, rfl, rfl, rfl⟩

set_option maxRecDepth 100000 in
/-- C5 at the object of test "should return false when annotation doesn't exist". -/
theorem unmarshalData_not_found_witness :
    ((UnmarshalData (testLib true) plainObject testSrc).found = false ∧
     (UnmarshalData (testLib true) plainObject testSrc).err = none ∧
     (UnmarshalData (testLib true) plainObject testSrc).frm = plainObject ∧
     (UnmarshalData (testLib true) plainObject testSrc).target = testSrc) ∧
    (UnmarshalData (testLib true) (plainObject.SetAnnotations none) testSrc).found = false ∧
    (UnmarshalData (testLib true) (plainObject.SetAnnotations none) testSrc).err = none ∧
    (UnmarshalData (testLib true) (plainObject.SetAnnotations (some [])) testSrc).found = false ∧
    (UnmarshalData (testLib true) (plainObject.SetAnnotations (some [])) testSrc).err = none :=
  unmarshalData_not_found (testLib true) plainObject testSrc rfl

set_option maxRecDepth 100000 in
/-- C7 as stated fails: on the object of test "should return error for invalid JSON" the
flag is false although the ` DataAnnotation` key is present. -/
theorem found_false_only_when_absent_fails :
    ¬ (∀ (frm target : TestObject), (UnmarshalData (testLib true) frm target).found = false →
        GoMap.get frm.GetAnnotations DataAnnotation = none) := by
  intro hall
  have h := hall invalidObject TestObject.zero rfl
  have h2 : GoMap.get invalidObject.GetAnnotations DataAnnotation = some "invalid-json" := rfl
  rw [h2] at h
  exact Option.noConfusion h

/-- C7 amended (meaning of the found flag): `found = true` exactly when the key is present
and its value parsed without error; `found = false` exactly when the key is absent (then
the error is nil) or the value failed to parse (then the error is non-nil). -/
theorem unmarshalData_found_flag {S P T : Type} (lib : JSONLib S T) (frm : Object P)
    (target : T) :
    ((UnmarshalData lib frm target).found = true ↔
      ∃ data, GoMap.get frm.GetAnnotations DataAnnotation = some data ∧
        (lib.Unmarshal data target).2 = none) ∧
    (((UnmarshalData lib frm target).found = false ∧ (UnmarshalData lib frm target).err = none) ↔
      GoMap.get frm.GetAnnotations DataAnnotation = none) ∧
    (((UnmarshalData lib frm target).found = false ∧ (UnmarshalData lib frm target).err ≠ none) ↔
      ∃ data, GoMap.get frm.GetAnnotations DataAnnotation = some data ∧
        (lib.Unmarshal data target).2 ≠ none) := by
  cases hg : GoMap.get frm.GetAnnotations DataAnnotation with
  | none =>
    rw [unmarshalData_absent lib frm target hg]
    simp
  | some data =>
    cases hu : (lib.Unmarshal data target).2 with
    | none =>
      rw [unmarshalData_ok lib frm target data hg hu]
      simp [hu]
    | some e =>
      rw [unmarshalData_error lib frm target data e hg hu]
      simp [hu]

theorem marshalPayload_testLib (z : Bool) (src : TestObject) :
    marshalPayload (testLib z) src =
      Except.ok (String.mk (encodeValue (JSON.obj (src.Content.toUnstructured z)))) := by
  unfold marshalPayload
  simp only [testLib]
  rw [deleteKey_metadata]

theorem unmarshalTestObject_payload (z : Bool) (c : TestContent)
    (h : inInt64 c.Spec.Field2 = true) :
    unmarshalTestObject (String.mk (encodeValue (JSON.obj (c.toUnstructured z))))
        TestObject.zero =
      ({ Meta := ObjectMeta.zero, Content := c }, none) := by
  unfold unmarshalTestObject
  simp only [parseJSON_encodeValue _ (noFloat_content z c), decodeTestObject]
  exact decodeObject_toUnstructured z c h

theorem content_keys (z : Bool) (c : TestContent) :
    ∀ e ∈ c.toUnstructured z, e.1 ≠ "metadata".data := by
  have h1 : ("apiVersion".data = "metadata".data) = False := by decide
  have h2 : ("kind".data = "metadata".data) = False := by decide
  have h3 : ("spec".data = "metadata".data) = False := by decide
  have h4 : ("status".data = "metadata".data) = False := by decide
  intro e he
  unfold TestContent.toUnstructured omitEmptyStr at he
  simp only [List.mem_append] at he
  rcases he with ((he | he) | he) | he
  · split_ifs at he
    · simp at he
    · simp at he; subst he; simp [h1]
  · split_ifs at he
    · simp at he
    · simp at he; subst he; simp [h2]
  · split_ifs at he
    · simp at he
    · simp at he; subst he; simp [h3]
  · split_ifs at he
    · simp at he
    · simp at he; subst he; simp [h4]

/-- The stash round trip on the test object with its strings as text: `MarshalData(src, dst)`
succeeds and `UnmarshalData(dst, to)` on a fresh zero-valued `to` returns `(true, nil)` with
`to` equal to `src` in every field outside the metadata and with zero metadata. -/
theorem text_stash_round_trip (z : Bool) (src dst : TestObject)
    (hint : inInt64 src.Content.Spec.Field2 = true) :
    (MarshalData (testLib z) src dst).1 = none ∧
    (UnmarshalData (testLib z) (MarshalData (testLib z) src dst).2 TestObject.zero).found
      = true ∧
    (UnmarshalData (testLib z) (MarshalData (testLib z) src dst).2 TestObject.zero).err
      = none ∧
    (UnmarshalData (testLib z) (MarshalData (testLib z) src dst).2 TestObject.zero).target =
      { Meta := ObjectMeta.zero, Content := src.Content } := by
  have hp := marshalPayload_testLib z src
  have hm := marshalData_ok (testLib z) src dst _ hp
  have hu := unmarshalTestObject_payload z src.Content hint
  have hget : GoMap.get (MarshalData (testLib z) src dst).2.GetAnnotations DataAnnotation =
      some (String.mk (encodeValue (JSON.obj (src.Content.toUnstructured z)))) := by
    rw [hm]
    exact StrMap.get_set_self _ _ _
  have hu2 : ((testLib z).Unmarshal
      (String.mk (encodeValue (JSON.obj (src.Content.toUnstructured z))))
      TestObject.zero).2 = none := by
    show (unmarshalTestObject _ _).2 = none
    rw [hu]
  have hr := unmarshalData_ok (testLib z) (MarshalData (testLib z) src dst).2
    TestObject.zero _ hget hu2
  refine ⟨by rw [hm], by rw [hr], by rw [hr], ?_⟩
  rw [hr]
  show (unmarshalTestObject _ _).1 = _
  rw [hu]

set_option maxRecDepth 100000 in
/-- C6 as stated fails: the namespace `default` of the source occurs in the stored payload,
because a spec field holds the same text. -/
theorem payload_contains_namespace :
    (MarshalData (testLib true) namesakeSrc testDst).1 = none ∧
    GoMap.get (MarshalData (testLib true) namesakeSrc testDst).2.GetAnnotations DataAnnotation =
      some "\x7b\"spec\":\x7b\"field1\":\"default\",\"field2\":42\x7d,\"status\":\x7b\"ready\":true\x7d\x7d" ∧
    containsSubstring
      "\x7b\"spec\":\x7b\"field1\":\"default\",\"field2\":42\x7d,\"status\":\x7b\"ready\":true\x7d\x7d"
      namesakeSrc.Meta.Namespace :=
  ⟨rfl, rfl, ⟨"\x7b\"spec\":\x7b\"field1\":\"".data,
    "\",\"field2\":42\x7d,\"status\":\x7b\"ready\":true\x7d\x7d".data, rfl⟩⟩

/-- C6 amended (exclusion invariant): `MarshalData` stores the serialization of the source's
fields outside `metadata`. The stored payload is the same for two sources that differ only
in their metadata, and the object it encodes has no `metadata` entry. -/
theorem payload_excludes_metadata (z : Bool) (src dst : TestObject) :
    (MarshalData (testLib z) src dst).1 = none ∧
    GoMap.get (MarshalData (testLib z) src dst).2.GetAnnotations DataAnnotation =
      some (String.mk (encodeValue (JSON.obj (src.Content.toUnstructured z)))) ∧
    (∀ (src2 dst2 : TestObject), src2.Content = src.Content →
      GoMap.get (MarshalData (testLib z) src2 dst2).2.GetAnnotations DataAnnotation =
        GoMap.get (MarshalData (testLib z) src dst).2.GetAnnotations DataAnnotation) ∧
    parseJSON (encodeValue (JSON.obj (src.Content.toUnstructured z))) =
      some (JSON.obj (src.Content.toUnstructured z)) ∧
    (∀ e ∈ src.Content.toUnstructured z, e.1 ≠ "metadata".data) := by
  have hget : ∀ (s d : TestObject),
      GoMap.get (MarshalData (testLib z) s d).2.GetAnnotations DataAnnotation =
        some (String.mk (encodeValue (JSON.obj (s.Content.toUnstructured z)))) := by
    intro s d
    rw [marshalData_ok (testLib z) s d _ (marshalPayload_testLib z s)]
    exact StrMap.get_set_self _ _ _
  refine ⟨?_, hget src dst, ?_, parseJSON_encodeValue _ (noFloat_content z _), content_keys z _⟩
  · rw [marshalData_ok (testLib z) src dst _ (marshalPayload_testLib z src)]
  · intro src2 dst2 h
    rw [hget src2 dst2, hget src dst, h]

/-! ## The stash round trip on byte strings -/

theorem char_range (c : Char) :
    c.toNat < 0xD800 ∨ (0xDFFF < c.toNat ∧ c.toNat < 0x110000) := c.valid

theorem decodeRune_utf8Encode (c : Char) (rest : List Nat) :
    decodeRune (utf8Encode c ++ rest) = some (c, rest) := by
  have hv := char_range c
  unfold utf8Encode
  split_ifs with h1 h2 h3
  · simp [decodeRune, h1, Char.ofNat_toNat]
  · have e : (192 + c.toNat / 64 - 192) * 64 + (128 + c.toNat % 64 - 128) = c.toNat := by omega
    have a1 : ¬ (192 + c.toNat / 64 < 128) := by omega
    have a2 : 194 ≤ 192 + c.toNat / 64 ∧ 192 + c.toNat / 64 ≤ 223 := by omega
    have a3 : isCont (128 + c.toNat % 64) = true := by
      simp only [isCont, decide_eq_true_eq]; omega
    simp only [List.cons_append, List.nil_append, decodeRune, a1, a2, a3, if_false, if_true,
      and_self, e, Char.ofNat_toNat]
  · have e : (224 + c.toNat / 4096 - 224) * 4096 + (128 + c.toNat / 64 % 64 - 128) * 64 +
        (128 + c.toNat % 64 - 128) = c.toNat := by omega
    have a1 : ¬ (224 + c.toNat / 4096 < 128) := by omega
    have a2 : ¬ (194 ≤ 224 + c.toNat / 4096 ∧ 224 + c.toNat / 4096 ≤ 223) := by omega
    have a3 : 224 ≤ 224 + c.toNat / 4096 ∧ 224 + c.toNat / 4096 ≤ 239 := by omega
    have a4 : isCont (128 + c.toNat % 64) = true := by
      simp only [isCont, decide_eq_true_eq]; omega
    have a5 : (if 224 + c.toNat / 4096 = 224 then 160 else 128) ≤ 128 + c.toNat / 64 % 64 := by
      split_ifs <;> omega
    have a6 : 128 + c.toNat / 64 % 64 ≤ (if 224 + c.toNat / 4096 = 237 then 159 else 191) := by
      split_ifs <;> omega
    simp only [List.cons_append, List.nil_append, decodeRune, a1, a2, a3, a4, a5, a6, if_false,
      if_true, and_self, e, Char.ofNat_toNat]
  · have e : (240 + c.toNat / 262144 - 240) * 262144 + (128 + c.toNat / 4096 % 64 - 128) * 4096 +
        (128 + c.toNat / 64 % 64 - 128) * 64 + (128 + c.toNat % 64 - 128) = c.toNat := by omega
    have a1 : ¬ (240 + c.toNat / 262144 < 128) := by omega
    have a2 : ¬ (194 ≤ 240 + c.toNat / 262144 ∧ 240 + c.toNat / 262144 ≤ 223) := by omega
    have a3 : ¬ (224 ≤ 240 + c.toNat / 262144 ∧ 240 + c.toNat / 262144 ≤ 239) := by omega
    have a3' : 240 ≤ 240 + c.toNat / 262144 ∧ 240 + c.toNat / 262144 ≤ 244 := by omega
    have a4 : isCont (128 + c.toNat % 64) = true := by
      simp only [isCont, decide_eq_true_eq]; omega
    have a4' : isCont (128 + c.toNat / 64 % 64) = true := by
      simp only [isCont, decide_eq_true_eq]; omega
    have a5 : (if 240 + c.toNat / 262144 = 240 then 144 else 128) ≤
        128 + c.toNat / 4096 % 64 := by
      split_ifs <;> omega
    have a6 : 128 + c.toNat / 4096 % 64 ≤
        (if 240 + c.toNat / 262144 = 244 then 143 else 191) := by
      split_ifs <;> omega
    simp only [List.cons_append, List.nil_append, decodeRune, a1, a2, a3, a3', a4, a4', a5, a6,
      if_false, if_true, and_self, e, Char.ofNat_toNat]

theorem utf8Encode_ne_nil (c : Char) : utf8Encode c ≠ [] := by
  unfold utf8Encode
  split_ifs <;> simp

theorem textBytes_eq_nil (s : List Char) : textBytes s = [] ↔ s = [] := by
  cases s with
  | nil => simp [textBytes]
  | cons c cs =>
    have := utf8Encode_ne_nil c
    simp [textBytes, this]

theorem escapeBytesAux_textBytes (s : List Char) :
    ∀ fuel, (textBytes s).length ≤ fuel → escapeBytesAux fuel (textBytes s) = escapeString s := by
  induction s with
  | nil =>
    intro fuel _
    cases fuel <;> simp [textBytes, escapeBytesAux, escapeString]
  | cons c cs ih =>
    intro fuel h
    have hne := utf8Encode_ne_nil c
    have hd := decodeRune_utf8Encode c (textBytes cs)
    simp only [textBytes] at h ⊢
    cases he : utf8Encode c with
    | nil => exact absurd he hne
    | cons b bs =>
      rw [he] at hd h
      simp only [List.cons_append, List.length_cons, List.length_append] at hd h ⊢
      obtain ⟨f, rfl⟩ : ∃ f, fuel = f + 1 := ⟨fuel - 1, by omega⟩
      simp only [escapeBytesAux, hd, escapeString]
      rw [ih f (by omega)]

theorem escapeBytes_textBytes (s : List Char) : escapeBytes (textBytes s) = escapeString s :=
  escapeBytesAux_textBytes s _ (Nat.le_refl _)

theorem string_eq_empty_iff (s : String) : s = "" ↔ s.data = [] := by
  constructor
  · intro h; subst h; rfl
  · intro h
    cases s with
    | mk d => simp only at h; subst h; rfl

theorem encodeValue_bytes_text (s : List Char) :
    encodeValue (JSON.bytes (textBytes s)) = encodeValue (JSON.str s) := by
  simp [encodeValue, encodeString, escapeBytes_textBytes]

theorem forall₂_sameText_append {a1 a2 b1 b2 : List (List Char × JSON)}
    (ha : List.Forall₂ sameText a1 a2) (hb : List.Forall₂ sameText b1 b2) :
    List.Forall₂ sameText (a1 ++ b1) (a2 ++ b2) := by
  induction ha with
  | nil => exact hb
  | cons h _ ih => exact List.Forall₂.cons h ih

theorem forall₂_sameText_refl (l : List (List Char × JSON)) : List.Forall₂ sameText l l := by
  induction l with
  | nil => exact List.Forall₂.nil
  | cons a l ih => exact List.Forall₂.cons ⟨rfl, rfl⟩ ih

theorem encode_congr {l1 l2 : List (List Char × JSON)} (h : List.Forall₂ sameText l1 l2) :
    encodeFields l1 = encodeFields l2 ∧ encodeValue (JSON.obj l1) = encodeValue (JSON.obj l2) := by
  induction h with
  | nil => exact ⟨rfl, rfl⟩
  | @cons a b l1 l2 hab _ ih =>
    obtain ⟨k1, v1⟩ := a
    obtain ⟨k2, v2⟩ := b
    obtain ⟨hk, hv⟩ := hab
    simp only at hk hv
    subst hk
    constructor
    · simp only [encodeFields, hv, ih.1]
    · simp only [encodeValue, hv, ih.1]

theorem omitEmpty_sameText (key : String) (s : String) :
    List.Forall₂ sameText (omitEmptyBytes key (textBytes s.data)) (omitEmptyStr key s) := by
  unfold omitEmptyBytes omitEmptyStr
  by_cases h : s = ""
  · subst h
    simp [textBytes]
  · have h2 : ¬ textBytes s.data = [] := by
      rw [textBytes_eq_nil, ← string_eq_empty_iff]
      exact h
    simp only [h, h2, if_false]
    exact List.Forall₂.cons ⟨rfl, encodeValue_bytes_text _⟩ List.Forall₂.nil

theorem spec_sameText (s : TestObjectSpec) :
    List.Forall₂ sameText
      (RawTestObjectSpec.toUnstructured
        { Field1 := textBytes s.Field1.data, Field2 := s.Field2 })
      s.toUnstructured := by
  unfold RawTestObjectSpec.toUnstructured TestObjectSpec.toUnstructured
  exact forall₂_sameText_append (omitEmpty_sameText "field1" s.Field1) (forall₂_sameText_refl _)

theorem rawSpec_zero_iff (s : TestObjectSpec) :
    (({ Field1 := textBytes s.Field1.data, Field2 := s.Field2 } : RawTestObjectSpec) =
      { Field1 := [], Field2 := 0 }) ↔ s = { Field1 := "", Field2 := 0 } := by
  obtain ⟨f1, f2⟩ := s
  simp only [RawTestObjectSpec.mk.injEq, TestObjectSpec.mk.injEq, textBytes_eq_nil,
    ← string_eq_empty_iff]

theorem content_sameText (z : Bool) (c : TestContent) :
    List.Forall₂ sameText (c.toRaw.toUnstructured z) (c.toUnstructured z) := by
  unfold RawTestContent.toUnstructured TestContent.toUnstructured TestContent.toRaw
  refine forall₂_sameText_append (forall₂_sameText_append (forall₂_sameText_append
    (omitEmpty_sameText _ _) (omitEmpty_sameText _ _)) ?_) (forall₂_sameText_refl _)
  simp only [rawSpec_zero_iff]
  split_ifs
  · exact List.Forall₂.nil
  · exact List.Forall₂.cons ⟨rfl, (encode_congr (spec_sameText c.Spec)).2⟩ List.Forall₂.nil

theorem deleteKey_metadata_raw (z : Bool) (o : RawTestObject) :
    deleteKey (o.toUnstructured z) "metadata".data = o.Content.toUnstructured z := by
  have h1 : ("apiVersion".data = "metadata".data) = False := by decide
  have h2 : ("kind".data = "metadata".data) = False := by decide
  have h3 : ("spec".data = "metadata".data) = False := by decide
  have h4 : ("status".data = "metadata".data) = False := by decide
  unfold RawTestObject.toUnstructured RawTestContent.toUnstructured omitEmptyBytes
  simp only [deleteKey_append]
  split_ifs <;> simp [deleteKey, h1, h2, h3, h4]

theorem decodeRawSpec_toUnstructured (s : TestObjectSpec) (h : inInt64 s.Field2 = true) :
    decodeRawSpecFields s.toUnstructured { Field1 := [], Field2 := 0 } =
      ({ Field1 := textBytes s.Field1.data, Field2 := s.Field2 }, none) := by
  obtain ⟨f1, f2⟩ := s
  simp only at h
  unfold TestObjectSpec.toUnstructured omitEmptyStr
  obtain ⟨_, _, _, _, _, _, _, _, _, _, _, _, k1, k2, k3, _⟩ := keyIs_facts
  by_cases h1 : f1 = "" <;> by_cases h2 : f2 = 0 <;>
    simp [h1, h2, decodeRawSpecFields, decodeByteString, decodeInt, firstErr, k1, k2, k3, h,
      textBytes]

theorem decodeRawObject_toUnstructured (z : Bool) (c : TestContent)
    (h : inInt64 c.Spec.Field2 = true) :
    decodeRawObjectFields (c.toUnstructured z) RawTestObject.zero =
      ({ Meta := ObjectMeta.zero, Content := c.toRaw }, none) := by
  obtain ⟨⟨kind, apiVersion⟩, spec, status⟩ := c
  simp only at h
  have hs := decodeRawSpec_toUnstructured spec h
  have ht := decodeStatus_toUnstructured status
  have hs0 : decodeRawSpecFields ({ Field1 := "", Field2 := 0 } : TestObjectSpec).toUnstructured
      { Field1 := [], Field2 := 0 } = ({ Field1 := [], Field2 := 0 }, none) := rfl
  have ht0 : decodeStatusFields ({ Ready := false } : TestObjectStatus).toUnstructured
      { Ready := false } = ({ Ready := false }, none) := rfl
  obtain ⟨a1, a2, a3, a4, a5, a6, a7, a8, a9, a10, a11, a12, _, _, _, _⟩ := keyIs_facts
  unfold TestContent.toUnstructured omitEmptyStr TestContent.toRaw
  cases z <;> by_cases h1 : apiVersion = "" <;> by_cases h2 : kind = "" <;>
    by_cases h3 : spec = { Field1 := "", Field2 := 0 } <;>
    by_cases h4 : status = { Ready := false } <;>
    simp [h1, h2, h3, h4, decodeRawObjectFields, decodeByteString, decodeRawSpec, decodeStatus,
      firstErr, a1, a2, a3, a4, a5, a6, a7, a8, a9, a10, a11, a12, hs, ht, hs0, ht0,
      RawTestObject.zero, textBytes]

theorem marshalPayload_rawLib (z : Bool) (src : RawTestObject) :
    marshalPayload (rawLib z) src =
      Except.ok (String.mk (encodeValue (JSON.obj (src.Content.toUnstructured z)))) := by
  unfold marshalPayload
  simp only [rawLib]
  rw [deleteKey_metadata_raw]

theorem unmarshalRawTestObject_payload (z : Bool) (c : TestContent)
    (h : inInt64 c.Spec.Field2 = true) :
    unmarshalRawTestObject (String.mk (encodeValue (JSON.obj (c.toRaw.toUnstructured z))))
        RawTestObject.zero =
      ({ Meta := ObjectMeta.zero, Content := c.toRaw }, none) := by
  unfold unmarshalRawTestObject
  rw [(encode_congr (content_sameText z c)).2]
  simp only [parseJSON_encodeValue _ (noFloat_content z c), decodeRawTestObject]
  exact decodeRawObject_toUnstructured z c h

theorem rawContent_of_validText (c : RawTestContent) (hkind : validText c.TypeMeta.Kind)
    (hapi : validText c.TypeMeta.APIVersion) (hfield : validText c.Spec.Field1) :
    ∃ t : TestContent, t.toRaw = c ∧ t.Spec.Field2 = c.Spec.Field2 := by
  obtain ⟨⟨kind, api⟩, ⟨f1, f2⟩, status⟩ := c
  obtain ⟨k, hk⟩ := hkind
  obtain ⟨a, ha⟩ := hapi
  obtain ⟨f, hf⟩ := hfield
  simp only at hk ha hf
  subst hk ha hf
  exact ⟨{ TypeMeta := { Kind := String.mk k, APIVersion := String.mk a },
           Spec := { Field1 := String.mk f, Field2 := f2 }, Status := status }, rfl, rfl⟩

set_option maxRecDepth 100000 in
/-- C1 as stated fails: for the test object whose `Spec.Field1` is the byte `0xff`,
`MarshalData` succeeds and stores the escape of U+FFFD, and `UnmarshalData` into a fresh
zero-valued object returns `(true, nil)` with `Spec.Field1` the three bytes of U+FFFD, so the
target is not equal to the source outside the metadata. -/
theorem stash_round_trip_loses_invalid_text :
    (MarshalData (rawLib true) invalidTextSrc RawTestObject.zero).1 = none ∧
    GoMap.get (MarshalData (rawLib true) invalidTextSrc RawTestObject.zero).2.GetAnnotations
      DataAnnotation =
        some "\x7b\"spec\":\x7b\"field1\":\"\\ufffd\"\x7d,\"status\":\x7b\"ready\":true\x7d\x7d" ∧
    (UnmarshalData (rawLib true) (MarshalData (rawLib true) invalidTextSrc RawTestObject.zero).2
      RawTestObject.zero).found = true ∧
    (UnmarshalData (rawLib true) (MarshalData (rawLib true) invalidTextSrc RawTestObject.zero).2
      RawTestObject.zero).err = none ∧
    (UnmarshalData (rawLib true) (MarshalData (rawLib true) invalidTextSrc RawTestObject.zero).2
      RawTestObject.zero).target.Content.Spec.Field1 = [239, 191, 189] ∧
    invalidTextSrc.Content.Spec.Field1 = [255] ∧
    (UnmarshalData (rawLib true) (MarshalData (rawLib true) invalidTextSrc RawTestObject.zero).2
      RawTestObject.zero).target ≠
        { Meta := ObjectMeta.zero, Content := invalidTextSrc.Content } := by
  refine ⟨rfl, rfl, rfl, rfl, rfl, rfl, ?_⟩
  intro h
  have h2 := congrArg (fun o : RawTestObject => o.Content.Spec.Field1) h
  have h3 : ([239, 191, 189] : List Nat) = [255] := h2
  exact absurd h3 (by decide)

/-- C1 amended (stash round trip): for every test object `src` whose string fields are valid
UTF-8 (its `int` field in range) and every destination, `MarshalData(src, dst)` succeeds and
`UnmarshalData(dst, to)` on a fresh zero-valued `to` returns `(true, nil)` with `to` equal to
`src` in every field outside the metadata and with zero metadata; this holds whether or not
the converter honours `omitzero`. -/
theorem stash_round_trip_valid_text (z : Bool) (src dst : RawTestObject)
    (hkind : validText src.Content.TypeMeta.Kind)
    (hapi : validText src.Content.TypeMeta.APIVersion)
    (hfield : validText src.Content.Spec.Field1)
    (hint : inInt64 src.Content.Spec.Field2 = true) :
    (MarshalData (rawLib z) src dst).1 = none ∧
    (UnmarshalData (rawLib z) (MarshalData (rawLib z) src dst).2 RawTestObject.zero).found
      = true ∧
    (UnmarshalData (rawLib z) (MarshalData (rawLib z) src dst).2 RawTestObject.zero).err
      = none ∧
    (UnmarshalData (rawLib z) (MarshalData (rawLib z) src dst).2 RawTestObject.zero).target =
      { Meta := ObjectMeta.zero, Content := src.Content } := by
  obtain ⟨t, ht, ht2⟩ := rawContent_of_validText src.Content hkind hapi hfield
  have hint2 : inInt64 t.Spec.Field2 = true := by rw [ht2]; exact hint
  have hp := marshalPayload_rawLib z src
  have hm := marshalData_ok (rawLib z) src dst _ hp
  have hu := unmarshalRawTestObject_payload z t hint2
  rw [ht] at hu
  have hget : GoMap.get (MarshalData (rawLib z) src dst).2.GetAnnotations DataAnnotation =
      some (String.mk (encodeValue (JSON.obj (src.Content.toUnstructured z)))) := by
    rw [hm]
    exact StrMap.get_set_self _ _ _
  have hu2 : ((rawLib z).Unmarshal
      (String.mk (encodeValue (JSON.obj (src.Content.toUnstructured z))))
      RawTestObject.zero).2 = none := by
    show (unmarshalRawTestObject _ _).2 = none
    rw [hu]
  have hr := unmarshalData_ok (rawLib z) (MarshalData (rawLib z) src dst).2
    RawTestObject.zero _ hget hu2
  refine ⟨by rw [hm], by rw [hr], by rw [hr], ?_⟩
  rw [hr]
  show (unmarshalRawTestObject _ _).1 = _
  rw [hu]

set_option maxRecDepth 100000 in
/-- C1 amended, at a test object whose `Field1` is the two bytes of the text "é". -/
theorem stash_round_trip_valid_text_witness :
    validText validTextSrc.Content.TypeMeta.Kind ∧
    validText validTextSrc.Content.TypeMeta.APIVersion ∧
    validText validTextSrc.Content.Spec.Field1 ∧
    inInt64 validTextSrc.Content.Spec.Field2 = true ∧
    (MarshalData (rawLib true) validTextSrc RawTestObject.zero).1 = none ∧
    (UnmarshalData (rawLib true) (MarshalData (rawLib true) validTextSrc RawTestObject.zero).2
      RawTestObject.zero).found = true ∧
    (UnmarshalData (rawLib true) (MarshalData (rawLib true) validTextSrc RawTestObject.zero).2
      RawTestObject.zero).err = none ∧
    (UnmarshalData (rawLib true) (MarshalData (rawLib true) validTextSrc RawTestObject.zero).2
      RawTestObject.zero).target =
        { Meta := ObjectMeta.zero, Content := validTextSrc.Content } :=
  ⟨⟨[], rfl⟩, ⟨[], rfl⟩, ⟨[Char.ofNat 233], rfl⟩, by decide,
    stash_round_trip_valid_text true validTextSrc RawTestObject.zero ⟨[], rfl⟩ ⟨[], rfl⟩
      ⟨[Char.ofNat 233], rfl⟩ (by decide)⟩

/-! ## The round-trip harness -/

theorem runIterations_pass_iff {W : Type} (iter : W → Option Failure × W) (n : Nat) :
    ∀ w : W, (runIterations iter n w).failure = none ↔
      ∀ i, i < n → (iter (worldAt iter i w)).1 = none := by
  induction n with
  | zero =>
    intro w
    simp [runIterations]
  | succ n ih =>
    intro w
    rcases hi : iter w with ⟨r, w'⟩
    cases r with
    | some f =>
      simp only [runIterations, hi]
      constructor
      · intro h; cases h
      · intro h
        have h0 := h 0 (Nat.succ_pos n)
        simp [worldAt, hi] at h0
    | none =>
      simp only [runIterations, hi]
      rw [ih w']
      constructor
      · intro h i hlt
        cases i with
        | zero => simp [worldAt, hi]
        | succ i =>
          have := h i (Nat.lt_of_succ_lt_succ hlt)
          simpa [worldAt, hi] using this
      · intro h i hlt
        have := h (i + 1) (Nat.succ_lt_succ hlt)
        simpa [worldAt, hi] using this

theorem runIterations_ran_of_pass {W : Type} (iter : W → Option Failure × W) (n : Nat) :
    ∀ w : W, (runIterations iter n w).failure = none → (runIterations iter n w).ran = n := by
  induction n with
  | zero => intro w _; rfl
  | succ n ih =>
    intro w h
    rcases hi : iter w with ⟨r, w'⟩
    cases r with
    | some f => simp [runIterations, hi] at h
    | none =>
      simp only [runIterations, hi] at h ⊢
      rw [ih w' h]

theorem runIterations_first_failure {W : Type} (iter : W → Option Failure × W) (n : Nat) :
    ∀ (w : W) (i : Nat) (f : Failure), i < n →
      (∀ j, j < i → (iter (worldAt iter j w)).1 = none) →
      (iter (worldAt iter i w)).1 = some f →
      (runIterations iter n w).failure = some f ∧ (runIterations iter n w).ran = i + 1 ∧
      (runIterations iter n w).world = (iter (worldAt iter i w)).2 := by
  induction n with
  | zero => intro w i f hlt; exact absurd hlt (Nat.not_lt_zero i)
  | succ n ih =>
    intro w i f hlt hbefore hfail
    rcases hi : iter w with ⟨r, w'⟩
    cases i with
    | zero =>
      simp only [worldAt, hi] at hfail
      subst hfail
      simp [runIterations, hi, worldAt]
    | succ i =>
      have h0 := hbefore 0 (Nat.succ_pos i)
      simp only [worldAt, hi] at h0
      subst h0
      have hb : ∀ j, j < i → (iter (worldAt iter j w')).1 = none := by
        intro j hj
        have := hbefore (j + 1) (Nat.succ_lt_succ hj)
        simpa [worldAt, hi] using this
      have hf : (iter (worldAt iter i w')).1 = some f := by
        simpa [worldAt, hi] using hfail
      obtain ⟨h1, h2, h3⟩ := ih w' i f (Nat.lt_of_succ_lt_succ hlt) hb hf
      simp only [runIterations, hi, worldAt]
      exact ⟨h1, by rw [h2], h3⟩

theorem runIterations_failFast {W : Type} (iter : W → Option Failure × W) (n : Nat) (w : W) :
    RunsFailFast iter n w (runIterations iter n w) :=
  ⟨runIterations_pass_iff iter n w, runIterations_ran_of_pass iter n w,
    fun i f hlt hb hf => runIterations_first_failure iter n w i f hlt hb hf⟩

/-- C8 (spoke-hub-spoke comparison): in an iteration in which the copies exist and both
conversions succeed (and the spoke is a `metav1.Object` when the cleanup is not skipped),
the iteration passes exactly when `spokeBefore` is semantically deep-equal to `spokeAfter`
after `ConvertTo` into the fresh hub copy, `ConvertFrom` into the fresh spoke copy, removal
of the `DataAnnotation` key unless `SkipSpokeAnnotationCleanup` is set, and then
`SpokeAfterMutation` when it is configured. -/
theorem spokeHubSpoke_iteration_passes_iff {W Obj Sch Fn Fz : Type}
    (rt : Runtime W Obj Sch Fn Fz) (input : FuzzTestFuncInput W Obj Sch Fn) (fuzzer : Fz)
    (w w1 w2 w3 w4 w5 : W) (spokeBefore hubCopy spokeAfter : Obj)
    (hcopy1 : rt.DeepCopyConvertible input.Spoke w = (some spokeBefore, w1))
    (hcopy2 : rt.DeepCopyHub input.Hub (rt.Fill fuzzer spokeBefore w1) = (some hubCopy, w2))
    (hto : rt.ConvertTo spokeBefore hubCopy w2 = (none, w3))
    (hcopy3 : rt.DeepCopyConvertible input.Spoke w3 = (some spokeAfter, w4))
    (hfrom : rt.ConvertFrom spokeAfter hubCopy w4 = (none, w5))
    (hmeta : input.SkipSpokeAnnotationCleanup = false → rt.IsMetaObject spokeAfter w5 = true) :
    ((spokeHubSpokeIteration rt input fuzzer w).1 = none ↔
      rt.SemanticDeepEqual spokeBefore spokeAfter
        (normalizeSpokeAfter rt input spokeAfter w5) = true) ∧
    (spokeHubSpokeIteration rt input fuzzer w).2 = normalizeSpokeAfter rt input spokeAfter w5 ∧
    (normalizeSpokeAfter rt input spokeAfter w5 =
      match input.SpokeAfterMutation with
      | some mutate =>
        mutate spokeAfter (if input.SkipSpokeAnnotationCleanup = true then w5
          else rt.DeleteAnnotation spokeAfter DataAnnotation w5)
      | none =>
        if input.SkipSpokeAnnotationCleanup = true then w5
        else rt.DeleteAnnotation spokeAfter DataAnnotation w5) := by
  have hguard : ¬ (input.SkipSpokeAnnotationCleanup = false ∧
      rt.IsMetaObject spokeAfter w5 = false) := by
    intro ⟨hs, hm⟩
    rw [hmeta hs] at hm
    cases hm
  refine ⟨?_, ?_, rfl⟩
  · unfold spokeHubSpokeIteration normalizeSpokeAfter
    simp only [hcopy1, hcopy2, hto, hcopy3, hfrom, hguard, if_false]
    cases hs : input.SkipSpokeAnnotationCleanup <;> cases hm : input.SpokeAfterMutation <;>
      simp only [Bool.false_eq_true, if_false, if_true] <;>
      split_ifs with heq <;> simp [heq]
  · unfold spokeHubSpokeIteration normalizeSpokeAfter
    simp only [hcopy1, hcopy2, hto, hcopy3, hfrom, hguard, if_false]
    cases hs : input.SkipSpokeAnnotationCleanup <;> cases hm : input.SpokeAfterMutation <;>
      simp only [Bool.false_eq_true, if_false, if_true] <;>
      split_ifs <;> rfl

set_option maxRecDepth 100000 in
/-- C8 on the first iteration of the small runtime: the stash that `ConvertFrom` leaves on
the spoke is removed before the comparison, and the iteration passes. -/
theorem spokeHubSpoke_iteration_passes_iff_witness :
    (spokeHubSpokeIteration testRuntime (testInput false) () testWorld).1 = none ∧
    ((spokeHubSpokeIteration testRuntime (testInput false) () testWorld).1 = none ↔
      testRuntime.SemanticDeepEqual 2 4
        (normalizeSpokeAfter testRuntime (testInput false) 4 spokeRun5) = true) ∧
    (spokeHubSpokeIteration testRuntime (testInput false) () testWorld).2 =
      normalizeSpokeAfter testRuntime (testInput false) 4 spokeRun5 ∧
    (normalizeSpokeAfter testRuntime (testInput false) 4 spokeRun5 =
      match (testInput false).SpokeAfterMutation with
      | some mutate =>
        mutate 4 (if (testInput false).SkipSpokeAnnotationCleanup = true then spokeRun5
          else testRuntime.DeleteAnnotation 4 DataAnnotation spokeRun5)
      | none =>
        if (testInput false).SkipSpokeAnnotationCleanup = true then spokeRun5
        else testRuntime.DeleteAnnotation 4 DataAnnotation spokeRun5) :=
  ⟨rfl, spokeHubSpoke_iteration_passes_iff testRuntime (testInput false) () testWorld
    spokeRun1 spokeRun2 spokeRun3 spokeRun4 spokeRun5 2 3 4 rfl rfl rfl rfl rfl (fun _ => rfl)⟩

/-- C9 (iteration count and fail-fast): each sub-test runs `input.N` iterations, 10000 when
`input.N` is nil (none when the count is not positive); it passes exactly when all of them
pass, and at the first failing iteration it stops with that failure, the later iterations
not being entered. -/
theorem phases_run_fail_fast {W Obj Sch Fn Fz : Type}
    (rt : Runtime W Obj Sch Fn Fz) (input : FuzzTestFuncInput W Obj Sch Fn) (w : W) :
    (input.N = none → iterationCount input = 10000) ∧
    (∀ k : Nat, input.N = some (k : Int) → iterationCount input = k) ∧
    (∀ z : Int, input.N = some z → z ≤ 0 → iterationCount input = 0) ∧
    RunsFailFast
      (spokeHubSpokeIteration rt input (rt.GetFuzzer (schemeOf rt input) input.FuzzerFuncs w).1)
      (iterationCount input) (rt.GetFuzzer (schemeOf rt input) input.FuzzerFuncs w).2
      (spokeHubSpoke rt input w) ∧
    RunsFailFast
      (hubSpokeHubIteration rt input (rt.GetFuzzer (schemeOf rt input) input.FuzzerFuncs w).1)
      (iterationCount input) (rt.GetFuzzer (schemeOf rt input) input.FuzzerFuncs w).2
      (hubSpokeHub rt input w) := by
  refine ⟨?_, ?_, ?_, runIterations_failFast _ _ _, runIterations_failFast _ _ _⟩
  · intro h
    simp [iterationCount, ptrDeref, h]
  · intro k h
    simp [iterationCount, ptrDeref, h]
  · intro z h hz
    simp [iterationCount, ptrDeref, h, hz]

set_option maxRecDepth 100000 in
/-- C9 on the small runtime with the cleanup skipped: the first iteration fails on the
stash left on the spoke and the two remaining iterations are not entered. -/
theorem phases_run_fail_fast_witness :
    (spokeHubSpoke testRuntime (testInput true) testWorld).failure = some Failure.mismatch ∧
    (spokeHubSpoke testRuntime (testInput true) testWorld).ran = 1 ∧
    iterationCount (testInput true) = 3 ∧
    RunsFailFast
      (spokeHubSpokeIteration testRuntime (testInput true)
        (testRuntime.GetFuzzer (schemeOf testRuntime (testInput true))
          (testInput true).FuzzerFuncs testWorld).1)
      (iterationCount (testInput true))
      (testRuntime.GetFuzzer (schemeOf testRuntime (testInput true))
        (testInput true).FuzzerFuncs testWorld).2
      (spokeHubSpoke testRuntime (testInput true) testWorld) :=
  ⟨rfl, rfl, rfl, (phases_run_fail_fast testRuntime (testInput true) testWorld).2.2.2.1⟩

/-- C10 (hub-spoke-hub applies no stripping and no hook): in an iteration in which the
copies exist and both conversions succeed, the filled hub is compared with the hub obtained
by `ConvertFrom` into a fresh spoke copy and `ConvertTo` into a fresh hub copy, in the world
those calls left, nothing being removed or normalized in between; and two inputs that agree
on everything but `SkipSpokeAnnotationCleanup`, `SpokeAfterMutation` and `HubAfterMutation`
give every iteration and the whole sub-test the same outcome from the same world. -/
theorem hubSpokeHub_no_stripping_no_hook {W Obj Sch Fn Fz : Type}
    (rt : Runtime W Obj Sch Fn Fz) (input : FuzzTestFuncInput W Obj Sch Fn) (fuzzer : Fz)
    (w w1 w2 w3 w4 w5 : W) (hubBefore dstCopy hubAfter : Obj)
    (hcopy1 : rt.DeepCopyHub input.Hub w = (some hubBefore, w1))
    (hcopy2 : rt.DeepCopyConvertible input.Spoke (rt.Fill fuzzer hubBefore w1) =
      (some dstCopy, w2))
    (hfrom : rt.ConvertFrom dstCopy hubBefore w2 = (none, w3))
    (hcopy3 : rt.DeepCopyHub input.Hub w3 = (some hubAfter, w4))
    (hto : rt.ConvertTo dstCopy hubAfter w4 = (none, w5)) :
    ((hubSpokeHubIteration rt input fuzzer w).1 = none ↔
      rt.SemanticDeepEqual hubBefore hubAfter w5 = true) ∧
    (hubSpokeHubIteration rt input fuzzer w).2 = w5 ∧
    (∀ (input2 : FuzzTestFuncInput W Obj Sch Fn), input2.Scheme = input.Scheme →
      input2.Hub = input.Hub → input2.Spoke = input.Spoke →
      input2.FuzzerFuncs = input.FuzzerFuncs → input2.N = input.N →
      (∀ (fz : Fz) (w0 : W),
        hubSpokeHubIteration rt input2 fz w0 = hubSpokeHubIteration rt input fz w0) ∧
      (∀ w0 : W, hubSpokeHub rt input2 w0 = hubSpokeHub rt input w0)) := by
  refine ⟨?_, ?_, ?_⟩
  · unfold hubSpokeHubIteration
    simp only [hcopy1, hcopy2, hfrom, hcopy3, hto]
    split_ifs with heq <;> simp [heq]
  · unfold hubSpokeHubIteration
    simp only [hcopy1, hcopy2, hfrom, hcopy3, hto]
    split_ifs <;> rfl
  · intro input2 hs hh hsp hf hn
    obtain ⟨s1, h1, m1, p1, a1, k1, f1, n1⟩ := input
    obtain ⟨s2, h2, m2, p2, a2, k2, f2, n2⟩ := input2
    simp only at hs hh hsp hf hn
    subst hs hh hsp hf hn
    exact ⟨fun _ _ => rfl, fun _ => rfl⟩

set_option maxRecDepth 100000 in
/-- C10 on the first iteration of the small runtime, with the cleanup switched off in one
input and on in the other. -/
theorem hubSpokeHub_no_stripping_no_hook_witness :
    (hubSpokeHubIteration testRuntime (testInput true) () testWorld).1 = none ∧
    ((hubSpokeHubIteration testRuntime (testInput true) () testWorld).1 = none ↔
      testRuntime.SemanticDeepEqual 2 4 hubRun5 = true) ∧
    (hubSpokeHubIteration testRuntime (testInput true) () testWorld).2 = hubRun5 ∧
    (∀ (input2 : FuzzTestFuncInput TestWorld Nat Unit Unit),
      input2.Scheme = (testInput true).Scheme →
      input2.Hub = (testInput true).Hub → input2.Spoke = (testInput true).Spoke →
      input2.FuzzerFuncs = (testInput true).FuzzerFuncs → input2.N = (testInput true).N →
      (∀ (fz : Unit) (w0 : TestWorld),
        hubSpokeHubIteration testRuntime input2 fz w0 =
          hubSpokeHubIteration testRuntime (testInput true) fz w0) ∧
      (∀ w0 : TestWorld,
        hubSpokeHub testRuntime input2 w0 = hubSpokeHub testRuntime (testInput true) w0)) :=
  ⟨rfl, hubSpokeHub_no_stripping_no_hook testRuntime (testInput true) () testWorld
    hubRun1 hubRun2 hubRun3 hubRun4 hubRun5 2 3 4 rfl rfl rfl rfl rfl⟩


/-! ## The example conversions -/

/-- C11 (round-trip law for the example spoke spec): for every v1alpha1 `MyResourceSpec` `s`
whose `OldField` is nil or points to a non-empty string, converting `s` into a fresh hub spec
(one whose `NewField` is empty), converting the result back into any spoke spec and
normalizing an `OldField` that points to the empty string to nil gives `s` again, both
conversions returning no error; and the example fuzzer only produces such `s`. -/
theorem spec_round_trip (s out2 : v1alpha1.MyResourceSpec) (out : v1.MyResourceSpec)
    (hold : s.OldField = none ∨ ∃ old, s.OldField = some old ∧ old ≠ "")
    (hfresh : out.NewField = "") :
    (Convert_v1alpha1_MyResourceSpec_To_v1_MyResourceSpec s out).1 = none ∧
    (Convert_v1_MyResourceSpec_To_v1alpha1_MyResourceSpec
      (Convert_v1alpha1_MyResourceSpec_To_v1_MyResourceSpec s out).2 out2).1 = none ∧
    normalizeOldField (Convert_v1_MyResourceSpec_To_v1alpha1_MyResourceSpec
      (Convert_v1alpha1_MyResourceSpec_To_v1_MyResourceSpec s out).2 out2).2 = s ∧
    (∀ (name : String) (replicas : Int) (coin : Bool) (str : String)
        (inp : v1alpha1.MyResourceSpec),
      (fuzzMyResourceSpec name replicas coin str inp).OldField = none ∨
      ∃ old, (fuzzMyResourceSpec name replicas coin str inp).OldField = some old ∧ old ≠ "") := by
  refine ⟨rfl, rfl, ?_, ?_⟩
  · obtain ⟨name, replicas, oldField⟩ := s
    obtain ⟨n1, r1, newField⟩ := out
    simp only at hold hfresh
    subst hfresh
    rcases hold with h | ⟨old, h, hne⟩
    · subst h
      simp [Convert_v1alpha1_MyResourceSpec_To_v1_MyResourceSpec,
        Convert_v1_MyResourceSpec_To_v1alpha1_MyResourceSpec, normalizeOldField]
    · subst h
      simp [Convert_v1alpha1_MyResourceSpec_To_v1_MyResourceSpec,
        Convert_v1_MyResourceSpec_To_v1alpha1_MyResourceSpec, normalizeOldField, hne]
  · intro name replicas coin str inp
    unfold fuzzMyResourceSpec
    cases coin
    · exact Or.inl rfl
    · by_cases hs : str = ""
      · simp [hs]
      · simp [hs]

/-- C11 at a spec without an `OldField`, converted into the zero hub spec: the way back
yields a pointer to the empty string, which the normalization turns into nil again. -/
theorem spec_round_trip_witness :
    (unsetSpec.OldField = none ∨ ∃ old, unsetSpec.OldField = some old ∧ old ≠ "") ∧
    v1.MyResourceSpec.zero.NewField = "" ∧
    (Convert_v1_MyResourceSpec_To_v1alpha1_MyResourceSpec
      (Convert_v1alpha1_MyResourceSpec_To_v1_MyResourceSpec unsetSpec
        v1.MyResourceSpec.zero).2 unsetSpec).2.OldField = some "" ∧
    (Convert_v1alpha1_MyResourceSpec_To_v1_MyResourceSpec unsetSpec
      v1.MyResourceSpec.zero).1 = none ∧
    (Convert_v1_MyResourceSpec_To_v1alpha1_MyResourceSpec
      (Convert_v1alpha1_MyResourceSpec_To_v1_MyResourceSpec unsetSpec
        v1.MyResourceSpec.zero).2 unsetSpec).1 = none ∧
    normalizeOldField (Convert_v1_MyResourceSpec_To_v1alpha1_MyResourceSpec
      (Convert_v1alpha1_MyResourceSpec_To_v1_MyResourceSpec unsetSpec
        v1.MyResourceSpec.zero).2 unsetSpec).2 = unsetSpec ∧
    (∀ (name : String) (replicas : Int) (coin : Bool) (str : String)
        (inp : v1alpha1.MyResourceSpec),
      (fuzzMyResourceSpec name replicas coin str inp).OldField = none ∨
      ∃ old, (fuzzMyResourceSpec name replicas coin str inp).OldField = some old ∧ old ≠ "") :=
  ⟨Or.inl rfl, rfl, rfl,
    spec_round_trip unsetSpec unsetSpec v1.MyResourceSpec.zero (Or.inl rfl) rfl⟩

end Utilconversion
